import Mathlib

/-!
# SimpleVector: a shallow embedding of `simple_vector.h` and `array_ptr.h`

The heap block owned by an `ArrayPtr<Type>` is a `List α` whose length is the
number of allocated slots; iterators (raw pointers into the block) are slot
offsets counted from `begin()`.  Every slot access is bounds-checked in the
model: an access outside the allocated block, an iterator moved before the
start of the block, or an iterator range whose end precedes its start yields
`Fault.UndefinedBehaviour` instead of a result.  The exception thrown by `At`
is `Fault.OutOfRange`.

`size_t` is the unsigned 64-bit integer type: `+`, `*` and `--` wrap modulo
`2 ^ 64`.  `std::move` of an element is modelled as a copy (the moved-from slot
keeps its old value), `Type()` is `default`, and `new Type[n]` yields `n`
default-initialised slots.  Allocation itself never fails in the model.
-/

namespace SimpleVec

/-- The ways an operation can end without a result. -/
inductive Fault where
  | OutOfRange
  | UndefinedBehaviour
  deriving DecidableEq, Repr

/-- Number of values of `size_t` (64-bit). -/
abbrev SIZE_MOD : Nat := 18446744073709551616

/-- Wrapping `size_t` addition. -/
def size_add (a b : Nat) : Nat := (a + b) % SIZE_MOD

/-- Wrapping `size_t` multiplication. -/
def size_mul (a b : Nat) : Nat := (a * b) % SIZE_MOD

/-- Wrapping `size_t` decrement (`--x`). -/
def size_dec (a : Nat) : Nat := (a + SIZE_MOD - 1) % SIZE_MOD

/-- Read of slot `i` of a block (`p[i]` as an rvalue). -/
def load {α : Type} (buf : List α) (i : Nat) : Except Fault α :=
  match buf[i]? with
  | some x => .ok x
  | none => .error Fault.UndefinedBehaviour

/-- Write of slot `i` of a block (`p[i] = x`). -/
def store {α : Type} (buf : List α) (i : Nat) (x : α) : Except Fault (List α) :=
  if i < buf.length then .ok (buf.set i x) else .error Fault.UndefinedBehaviour

/-- Pointer subtraction `p - n` on slot offsets; leaving the block at the front is a fault. -/
def ptr_sub (p n : Nat) : Except Fault Nat :=
  if n ≤ p then .ok (p - n) else .error Fault.UndefinedBehaviour

/-- Loop body of `std::move` / `std::copy` between two distinct blocks, run `n` times:
`*d_first++ = *first++`. -/
def std_move_loop {α : Type} (src : List α) :
    Nat → Nat → List α → Nat → Except Fault (List α)
  | 0, _, dst, _ => .ok dst
  | n + 1, first, dst, d_first => do
      let x ← load src first
      let dst ← store dst d_first x
      std_move_loop src n (first + 1) dst (d_first + 1)

/-- The call `std::move(first, last, d_first)` (also `std::copy`) from block `src` into the
distinct block `dst`. -/
def std_move {α : Type} (src : List α) (first last : Nat) (dst : List α) (d_first : Nat) :
    Except Fault (List α) :=
  if last < first then .error Fault.UndefinedBehaviour
  else std_move_loop src (last - first) first dst d_first

/-- Loop body of `std::move(first, last, d_first)` when source and destination lie in the
same block, run `n` times. -/
def std_move_within_loop {α : Type} :
    Nat → List α → Nat → Nat → Except Fault (List α)
  | 0, buf, _, _ => .ok buf
  | n + 1, buf, first, d_first => do
      let x ← load buf first
      let buf ← store buf d_first x
      std_move_within_loop n buf (first + 1) (d_first + 1)

/-- The call `std::move(first, last, d_first)` inside one block. -/
def std_move_within {α : Type} (buf : List α) (first last d_first : Nat) :
    Except Fault (List α) :=
  if last < first then .error Fault.UndefinedBehaviour
  else std_move_within_loop (last - first) buf first d_first

/-- Loop body of `std::copy_backward` / `std::move_backward`, run `n` times:
`*(--d_last) = *(--last)`. -/
def std_copy_backward_loop {α : Type} :
    Nat → List α → Nat → Nat → Except Fault (List α)
  | 0, buf, _, _ => .ok buf
  | n + 1, buf, last, d_last => do
      let last ← ptr_sub last 1
      let d_last ← ptr_sub d_last 1
      let x ← load buf last
      let buf ← store buf d_last x
      std_copy_backward_loop n buf last d_last

/-- The call `std::copy_backward(first, last, d_last)` inside one block. -/
def std_copy_backward {α : Type} (buf : List α) (first last d_last : Nat) :
    Except Fault (List α) :=
  if last < first then .error Fault.UndefinedBehaviour
  else std_copy_backward_loop (last - first) buf last d_last

/-- The call `std::move_backward(first, last, d_last)` inside one block: the same loop as
`std::copy_backward`, elements being moved instead of copied. -/
def std_move_backward {α : Type} (buf : List α) (first last d_last : Nat) :
    Except Fault (List α) :=
  if last < first then .error Fault.UndefinedBehaviour
  else std_copy_backward_loop (last - first) buf last d_last

/-- Loop `for (it = first; it != last; ++it) *it = x`, run `n` times (also `std::fill`). -/
def fill_loop {α : Type} : Nat → List α → Nat → α → Except Fault (List α)
  | 0, buf, _, _ => .ok buf
  | n + 1, buf, it, x => do
      let buf ← store buf it x
      fill_loop n buf (it + 1) x

/-- The loop `for (it = first; it != last; ++it) *it = x` over one block. -/
def fill_range {α : Type} (buf : List α) (first last : Nat) (x : α) : Except Fault (List α) :=
  if last < first then .error Fault.UndefinedBehaviour
  else fill_loop (last - first) buf first x

/-- Loop of `std::equal(first1, last1, first2)`, run `n` times:
`if (!(*first1 == *first2)) return false;`, and `true` when the loop runs out. -/
def std_equal_loop {α : Type} [BEq α] (b1 b2 : List α) : Nat → Nat → Nat → Except Fault Bool
  | 0, _, _ => .ok true
  | n + 1, first1, first2 => do
      let x ← load b1 first1
      let y ← load b2 first2
      if !(x == y) then .ok false
      else std_equal_loop b1 b2 n (first1 + 1) (first2 + 1)

/-- The call `std::equal(first1, last1, first2)`, the first range in block `b1` and the second
in block `b2`. -/
def std_equal {α : Type} [BEq α] (b1 : List α) (first1 last1 : Nat) (b2 : List α)
    (first2 : Nat) : Except Fault Bool :=
  if last1 < first1 then .error Fault.UndefinedBehaviour
  else std_equal_loop b1 b2 (last1 - first1) first1 first2

/-- Loop of `std::lexicographical_compare`, run while both ranges have elements (`n` times):
`if (*first1 < *first2) return true; if (*first2 < *first1) return false;`, and afterwards
`return (first1 == last1) && (first2 != last2);`. -/
def std_lexicographical_compare_loop {α : Type} [LT α] [DecidableRel ((· < ·) : α → α → Prop)]
    (b1 b2 : List α) : Nat → Nat → Nat → Nat → Nat → Except Fault Bool
  | 0, first1, last1, first2, last2 => .ok (first1 == last1 && first2 != last2)
  | n + 1, first1, last1, first2, last2 => do
      let x ← load b1 first1
      let y ← load b2 first2
      if x < y then .ok true
      else if y < x then .ok false
      else std_lexicographical_compare_loop b1 b2 n (first1 + 1) last1 (first2 + 1) last2

/-- The call `std::lexicographical_compare(first1, last1, first2, last2)`, the first range in
block `b1` and the second in block `b2`. -/
def std_lexicographical_compare {α : Type} [LT α] [DecidableRel ((· < ·) : α → α → Prop)]
    (b1 : List α) (first1 last1 : Nat) (b2 : List α) (first2 last2 : Nat) :
    Except Fault Bool :=
  if last1 < first1 ∨ last2 < first2 then .error Fault.UndefinedBehaviour
  else std_lexicographical_compare_loop b1 b2 (min (last1 - first1) (last2 - first2))
    first1 last1 first2 last2

/-- The class `ArrayPtr<Type>`: the owned block (`nullptr` and a block of zero slots both
offer no slot and are the empty list). -/
structure ArrayPtr (α : Type) where
  array_ : List α
  deriving DecidableEq, Repr

/-- Constructor `ArrayPtr()`: `array_ = nullptr`. -/
def ArrayPtr.mk_default {α : Type} : ArrayPtr α := ⟨[]⟩

/-- Constructor `ArrayPtr(size_t size)`: `array_ = new Type[size]`. -/
def ArrayPtr.mk_sized {α : Type} [Inhabited α] (size : Nat) : ArrayPtr α :=
  ⟨List.replicate size default⟩

/-- Method `ArrayPtr::GetRawPtr`. -/
def ArrayPtr.GetRawPtr {α : Type} (p : ArrayPtr α) : List α := p.array_

/-- Method `ArrayPtr::SetRawPtr`. -/
def ArrayPtr.SetRawPtr {α : Type} (_p : ArrayPtr α) (ptr : List α) : ArrayPtr α := ⟨ptr⟩

/-- Method `ArrayPtr::Resize(old_size, new_size)`: allocate `new_size` slots, move the first
`old_size` elements of the old block into them, adopt the new block. -/
def ArrayPtr.Resize {α : Type} [Inhabited α] (p : ArrayPtr α) (old_size new_size : Nat) :
    Except Fault (ArrayPtr α) := do
  let temp_ptr : List α := List.replicate new_size default
  let temp_ptr ← std_move p.array_ 0 (0 + old_size) temp_ptr 0
  pure ⟨temp_ptr⟩

/-- The class `SimpleVector<Type>`. -/
structure SimpleVector (α : Type) where
  array_ptr_ : ArrayPtr α
  size_ : Nat
  capacity_ : Nat
  deriving DecidableEq, Repr

namespace SimpleVector

variable {α : Type}

/-- Method `GetSize`. -/
def GetSize (v : SimpleVector α) : Nat := v.size_

/-- Method `GetCapacity`. -/
def GetCapacity (v : SimpleVector α) : Nat := v.capacity_

/-- Method `IsEmpty`. -/
def IsEmpty (v : SimpleVector α) : Bool := v.size_ == 0

/-- Iterator `begin()` as a slot offset. -/
def begin_ (_v : SimpleVector α) : Nat := 0

/-- Iterator `end()` as a slot offset. -/
def end_ (v : SimpleVector α) : Nat := 0 + v.size_

/-- Method `SimpleVector::Resize(new_size)`. -/
def Resize [Inhabited α] (v : SimpleVector α) (new_size : Nat) :
    Except Fault (SimpleVector α) :=
  if new_size = v.size_ then
    .ok v
  else if new_size < v.size_ then
    .ok { v with size_ := new_size }
  else if new_size > v.size_ ∧ new_size ≤ v.capacity_ then do
    let buf ← fill_range v.array_ptr_.GetRawPtr (0 + v.size_) (0 + new_size) default
    pure { v with array_ptr_ := ⟨buf⟩, size_ := new_size }
  else if new_size > v.capacity_ then do
    let p ← v.array_ptr_.Resize v.size_ (max new_size (size_mul v.capacity_ 2))
    let buf ← fill_range p.GetRawPtr (0 + v.size_) (0 + new_size) default
    pure { array_ptr_ := ⟨buf⟩, size_ := new_size,
           capacity_ := max new_size (size_mul v.capacity_ 2) }
  else
    .ok v

/-- Method `SimpleVector::PushBack(const Type& item)`. -/
def PushBack [Inhabited α] (v : SimpleVector α) (item : α) :
    Except Fault (SimpleVector α) :=
  if v.size_ = v.capacity_ then do
    let v ← v.Resize (size_add v.size_ 1)
    let last ← ptr_sub v.end_ 1
    let buf ← store v.array_ptr_.GetRawPtr last item
    pure { v with array_ptr_ := ⟨buf⟩ }
  else do
    let buf ← store v.array_ptr_.GetRawPtr v.end_ item
    pure { v with array_ptr_ := ⟨buf⟩, size_ := size_add v.size_ 1 }

/-- Method `SimpleVector::PushBack(Type&& item)`. -/
def PushBackMove [Inhabited α] (v : SimpleVector α) (item : α) :
    Except Fault (SimpleVector α) :=
  if v.size_ = v.capacity_ then do
    let v ← v.Resize (size_add v.size_ 1)
    let last ← ptr_sub v.end_ 1
    let buf ← store v.array_ptr_.GetRawPtr last item
    pure { v with array_ptr_ := ⟨buf⟩ }
  else do
    let buf ← store v.array_ptr_.GetRawPtr v.end_ item
    pure { v with array_ptr_ := ⟨buf⟩, size_ := size_add v.size_ 1 }

/-- Method `SimpleVector::Insert(ConstIterator pos, const Type& value)`, with `pos = begin() + pos_num`.
Returns the vector and the returned iterator as an offset from the new `begin()`. -/
def Insert [Inhabited α] (v : SimpleVector α) (pos_num : Nat) (value : α) :
    Except Fault (SimpleVector α × Nat) :=
  if v.size_ = v.capacity_ then do
    let v ← v.Resize (size_add v.size_ 1)
    let it := v.begin_ + pos_num
    let last ← ptr_sub v.end_ 1
    let buf ← std_copy_backward v.array_ptr_.GetRawPtr it last v.end_
    let buf ← store buf it value
    pure ({ v with array_ptr_ := ⟨buf⟩ }, it)
  else do
    let it := v.begin_ + pos_num
    let buf ← std_copy_backward v.array_ptr_.GetRawPtr it v.end_ (v.end_ + 1)
    let buf ← store buf it value
    pure ({ v with array_ptr_ := ⟨buf⟩, size_ := size_add v.size_ 1 }, it)

/-- Method `SimpleVector::Insert(ConstIterator pos, Type&& value)`, with `pos = begin() + pos_num`. -/
def InsertMove [Inhabited α] (v : SimpleVector α) (pos_num : Nat) (value : α) :
    Except Fault (SimpleVector α × Nat) :=
  if v.size_ = v.capacity_ then do
    let v ← v.Resize (size_add v.size_ 1)
    let it := v.begin_ + pos_num
    let buf ← std_move_backward v.array_ptr_.GetRawPtr it v.end_ (v.end_ + 1)
    let buf ← store buf it value
    pure ({ v with array_ptr_ := ⟨buf⟩ }, it)
  else do
    let it := v.begin_ + pos_num
    let buf ← std_move_backward v.array_ptr_.GetRawPtr it v.end_ (v.end_ + 1)
    let buf ← store buf it value
    pure ({ v with array_ptr_ := ⟨buf⟩, size_ := size_add v.size_ 1 }, it)

/-- Method `SimpleVector::PopBack`. -/
def PopBack (v : SimpleVector α) : SimpleVector α :=
  if v.size_ = 0 then v else { v with size_ := size_dec v.size_ }

/-- Method `SimpleVector::Erase(ConstIterator pos)`, with `pos = begin() + pos_num`.  Returns the
vector and the returned iterator as an offset from `begin()`. -/
def Erase (v : SimpleVector α) (pos_num : Nat) : Except Fault (SimpleVector α × Nat) := do
  let non_const_pos := v.begin_ + pos_num
  let buf ← std_move_within v.array_ptr_.GetRawPtr (non_const_pos + 1) v.end_ non_const_pos
  pure ({ v with array_ptr_ := ⟨buf⟩, size_ := size_dec v.size_ }, non_const_pos)

/-- Method `SimpleVector::Clear`. -/
def Clear (v : SimpleVector α) : SimpleVector α := { v with size_ := 0 }

/-- Method `SimpleVector::swap(other)`: returns the new `*this` and the new `other`. -/
def swap (v other : SimpleVector α) : SimpleVector α × SimpleVector α :=
  let temp := other.array_ptr_.GetRawPtr
  let other_ptr := other.array_ptr_.SetRawPtr v.array_ptr_.GetRawPtr
  let this_ptr := v.array_ptr_.SetRawPtr temp
  ({ array_ptr_ := this_ptr, size_ := other.size_, capacity_ := other.capacity_ },
   { array_ptr_ := other_ptr, size_ := v.size_, capacity_ := v.capacity_ })

/-- Method `SimpleVector::Reserve(new_capacity)`. -/
def Reserve [Inhabited α] (v : SimpleVector α) (new_capacity : Nat) :
    Except Fault (SimpleVector α) :=
  if v.capacity_ ≥ new_capacity then
    .ok v
  else do
    let p ← v.array_ptr_.Resize v.size_ new_capacity
    pure { v with array_ptr_ := p, capacity_ := new_capacity }

/-- Operator `operator[]`: unchecked access to slot `index`. -/
def index (v : SimpleVector α) (index : Nat) : Except Fault α :=
  load v.array_ptr_.GetRawPtr index

/-- Method `SimpleVector::At(index)`. -/
def At (v : SimpleVector α) (index : Nat) : Except Fault α :=
  if index ≥ v.size_ then .error Fault.OutOfRange
  else load v.array_ptr_.GetRawPtr index

/-- Constructor `SimpleVector()`. -/
def mk_default : SimpleVector α :=
  { array_ptr_ := ArrayPtr.mk_default, size_ := 0, capacity_ := 0 }

/-- Constructor `SimpleVector(size_t size)`. -/
def mk_sized [Inhabited α] (size : Nat) : Except Fault (SimpleVector α) := do
  let v : SimpleVector α := { array_ptr_ := ArrayPtr.mk_sized size, size_ := size, capacity_ := size }
  let buf ← fill_range v.array_ptr_.GetRawPtr v.begin_ v.end_ default
  pure { v with array_ptr_ := ⟨buf⟩ }

/-- Constructor `SimpleVector(size_t size, const Type& value)`. -/
def mk_filled [Inhabited α] (size : Nat) (value : α) : Except Fault (SimpleVector α) := do
  let p : ArrayPtr α := ArrayPtr.mk_sized size
  let buf ← fill_loop size p.GetRawPtr 0 value
  pure { array_ptr_ := ⟨buf⟩, size_ := size, capacity_ := size }

/-- Constructor `SimpleVector(std::initializer_list<Type> init)`. -/
def mk_init [Inhabited α] (init : List α) : Except Fault (SimpleVector α) := do
  let p : ArrayPtr α := ArrayPtr.mk_sized init.length
  let buf ← std_move_loop init init.length 0 p.GetRawPtr 0
  pure { array_ptr_ := ⟨buf⟩, size_ := init.length, capacity_ := init.length }

/-- Constructor `SimpleVector(ReserveProxyObj reserve)`, `reserve.capacity_` being the argument. -/
def mk_reserve [Inhabited α] (capacity : Nat) : Except Fault (SimpleVector α) :=
  Reserve { array_ptr_ := ArrayPtr.mk_default, size_ := 0, capacity_ := 0 } capacity

/-- Constructor `SimpleVector(const SimpleVector& other)`. -/
def mk_copy [Inhabited α] (other : SimpleVector α) : Except Fault (SimpleVector α) := do
  let tmp ← mk_sized other.size_
  let buf ← std_move other.array_ptr_.GetRawPtr other.begin_ other.end_ tmp.array_ptr_.GetRawPtr
    tmp.begin_
  let tmp : SimpleVector α :=
    { array_ptr_ := ⟨buf⟩, size_ := other.size_, capacity_ := other.size_ }
  pure (swap mk_default tmp).1

/-- Constructor `SimpleVector(SimpleVector&& other)`: returns the new vector and the moved-from `other`. -/
def mk_move (other : SimpleVector α) : SimpleVector α × SimpleVector α :=
  ({ array_ptr_ := other.array_ptr_, size_ := other.size_, capacity_ := other.capacity_ },
   { array_ptr_ := ⟨[]⟩, size_ := 0, capacity_ := 0 })

/-- Assignment `operator=(const SimpleVector& rhs)`: the new `*this`. -/
def assign_copy [Inhabited α] (v rhs : SimpleVector α) : Except Fault (SimpleVector α) := do
  let tmp ← mk_copy rhs
  pure (swap v tmp).1

/-- Assignment `operator=(SimpleVector&& rhs)` for two distinct objects: the new `*this` and the
moved-from `rhs`. -/
def assign_move (_v rhs : SimpleVector α) : SimpleVector α × SimpleVector α :=
  ({ array_ptr_ := rhs.array_ptr_, size_ := rhs.size_, capacity_ := rhs.capacity_ },
   { array_ptr_ := ⟨[]⟩, size_ := 0, capacity_ := 0 })

/-- The live element sequence: the slots `[begin(), end())`. -/
def live (v : SimpleVector α) : List α := v.array_ptr_.array_.take v.size_

/-- Representation invariant: the block has `capacity_` slots, `size_ <= capacity_`, and
`capacity_` is a `size_t` value. -/
def Inv (v : SimpleVector α) : Prop :=
  v.array_ptr_.array_.length = v.capacity_ ∧ v.size_ ≤ v.capacity_ ∧ v.capacity_ < SIZE_MOD

instance (v : SimpleVector α) : Decidable v.Inv := by
  unfold Inv; exact inferInstance

/-- Build a vector state directly from a block and a size (capacity = block length). -/
def ofBlock (buf : List α) (size : Nat) : SimpleVector α :=
  { array_ptr_ := ⟨buf⟩, size_ := size, capacity_ := buf.length }

/-- Iterator `cbegin()` as a slot offset. -/
def cbegin (_v : SimpleVector α) : Nat := 0

/-- Iterator `cend()` as a slot offset. -/
def cend (v : SimpleVector α) : Nat := 0 + v.size_

/-- Free function `operator==(lhs, rhs)`; `lhs_addr` and `rhs_addr` are the addresses of the
two objects (`&lhs`, `&rhs`). -/
def operator_eq [BEq α] (lhs_addr rhs_addr : Nat) (lhs rhs : SimpleVector α) :
    Except Fault Bool :=
  if lhs_addr = rhs_addr then
    .ok true
  else if lhs.GetSize ≠ rhs.GetSize then
    .ok false
  else
    std_equal lhs.array_ptr_.GetRawPtr lhs.cbegin lhs.cend rhs.array_ptr_.GetRawPtr rhs.cbegin

/-- Free function `operator<(lhs, rhs)`. -/
def operator_lt [LT α] [DecidableRel ((· < ·) : α → α → Prop)] (lhs rhs : SimpleVector α) :
    Except Fault Bool :=
  std_lexicographical_compare lhs.array_ptr_.GetRawPtr lhs.cbegin lhs.cend
    rhs.array_ptr_.GetRawPtr rhs.cbegin rhs.cend

/-- Free function `operator<=(lhs, rhs)`. -/
def operator_le [LT α] [DecidableRel ((· < ·) : α → α → Prop)] (lhs rhs : SimpleVector α) :
    Except Fault Bool := do
  let r ← operator_lt rhs lhs
  pure (!r)

/-- Free function `operator>(lhs, rhs)`. -/
def operator_gt [LT α] [DecidableRel ((· < ·) : α → α → Prop)] (lhs rhs : SimpleVector α) :
    Except Fault Bool :=
  operator_lt rhs lhs

/-- Free function `operator>=(lhs, rhs)`. -/
def operator_ge [LT α] [DecidableRel ((· < ·) : α → α → Prop)] (lhs rhs : SimpleVector α) :
    Except Fault Bool := do
  let r ← operator_lt lhs rhs
  pure (!r)

/-- The calls `v.PushBack(x_1); ...; v.PushBack(x_n);` one after the other. -/
def PushBack_all [Inhabited α] (v : SimpleVector α) : List α → Except Fault (SimpleVector α)
  | [] => .ok v
  | x :: xs => do
      let w ← v.PushBack x
      PushBack_all w xs

/-- The vector `{1,2,3}` of the literal-list constructor: size 3, capacity 3. -/
def scenario_v3 : SimpleVector Nat := ofBlock [1, 2, 3] 3

/-- The vector `{1,2,3,4}` after `PushBack(4)`: size 4, capacity 6. -/
def scenario_v4 : SimpleVector Nat := ofBlock [1, 2, 3, 4, 0, 0] 4

/-- The vector `{1,99,2,3,4}` after `Insert(begin() + 1, 99)`: size 5, capacity 6. -/
def scenario_v5 : SimpleVector Nat := ofBlock [1, 99, 2, 3, 4, 0] 5

/-- A full vector `{7}` of capacity 1. -/
def scenario_v1 : SimpleVector Nat := ofBlock [7] 1

/-- The states a vector object can be in: those produced by a constructor and then by any
sequence of successful member calls, with `size_t` arguments, `Insert` given a position in
`[begin(), end()]` and `Erase` a position in `[begin(), end())`. -/
inductive Reachable [Inhabited α] : SimpleVector α → Prop
  | ctor_default : Reachable mk_default
  | ctor_sized (n : Nat) (w : SimpleVector α) :
      n < SIZE_MOD → mk_sized n = .ok w → Reachable w
  | ctor_filled (n : Nat) (x : α) (w : SimpleVector α) :
      n < SIZE_MOD → mk_filled n x = .ok w → Reachable w
  | ctor_init (l : List α) (w : SimpleVector α) :
      l.length < SIZE_MOD → mk_init l = .ok w → Reachable w
  | ctor_reserve (c : Nat) (w : SimpleVector α) :
      c < SIZE_MOD → mk_reserve c = .ok w → Reachable w
  | ctor_copy (v w : SimpleVector α) : Reachable v → mk_copy v = .ok w → Reachable w
  | ctor_move_target (v : SimpleVector α) : Reachable v → Reachable (mk_move v).1
  | ctor_move_source (v : SimpleVector α) : Reachable v → Reachable (mk_move v).2
  | copy_assigned (v rhs w : SimpleVector α) :
      Reachable v → Reachable rhs → assign_copy v rhs = .ok w → Reachable w
  | move_assigned_target (v rhs : SimpleVector α) :
      Reachable v → Reachable rhs → Reachable (assign_move v rhs).1
  | move_assigned_source (v rhs : SimpleVector α) :
      Reachable v → Reachable rhs → Reachable (assign_move v rhs).2
  | clear (v : SimpleVector α) : Reachable v → Reachable v.Clear
  | resize (v w : SimpleVector α) (n : Nat) :
      Reachable v → n < SIZE_MOD → v.Resize n = .ok w → Reachable w
  | push_back (v w : SimpleVector α) (x : α) :
      Reachable v → v.PushBack x = .ok w → Reachable w
  | push_back_move (v w : SimpleVector α) (x : α) :
      Reachable v → v.PushBackMove x = .ok w → Reachable w
  | insert (v w : SimpleVector α) (k it : Nat) (x : α) :
      Reachable v → k ≤ v.size_ → v.Insert k x = .ok (w, it) → Reachable w
  | insert_move (v w : SimpleVector α) (k it : Nat) (x : α) :
      Reachable v → k ≤ v.size_ → v.InsertMove k x = .ok (w, it) → Reachable w
  | pop_back (v : SimpleVector α) : Reachable v → Reachable v.PopBack
  | erase (v w : SimpleVector α) (k it : Nat) :
      Reachable v → k < v.size_ → v.Erase k = .ok (w, it) → Reachable w
  | reserve (v w : SimpleVector α) (c : Nat) :
      Reachable v → c < SIZE_MOD → v.Reserve c = .ok w → Reachable w
  | swap_this (v other : SimpleVector α) :
      Reachable v → Reachable other → Reachable (swap v other).1
  | swap_other (v other : SimpleVector α) :
      Reachable v → Reachable other → Reachable (swap v other).2

end SimpleVector

/-! ## Memory primitives -/

theorem ok_bind {ε β γ : Type} (a : β) (f : β → Except ε γ) :
    (Except.ok a >>= f) = f a := rfl

theorem load_ok {α : Type} (buf : List α) (i : Nat) (h : i < buf.length) :
    load buf i = .ok (buf.get ⟨i, h⟩) := by
  simp [load, List.getElem?_eq_getElem h]

theorem load_fault {α : Type} (buf : List α) (i : Nat) (h : buf.length ≤ i) :
    load buf i = .error Fault.UndefinedBehaviour := by
  simp [load, List.getElem?_eq_none h]

theorem store_ok {α : Type} (buf : List α) (i : Nat) (x : α) (h : i < buf.length) :
    store buf i x = .ok (buf.set i x) := by
  simp [store, h]

theorem store_fault {α : Type} (buf : List α) (i : Nat) (x : α) (h : buf.length ≤ i) :
    store buf i x = .error Fault.UndefinedBehaviour := by
  simp [store, Nat.not_lt.mpr h]

theorem ptr_sub_ok (p n : Nat) (h : n ≤ p) : ptr_sub p n = .ok (p - n) := by
  simp [ptr_sub, h]

/-! ## The loops -/

theorem fill_loop_spec {α : Type} (x : α) :
    ∀ (n : Nat) (buf : List α) (it : Nat), it + n ≤ buf.length →
      ∃ r, fill_loop n buf it x = .ok r ∧ r.length = buf.length ∧
        ∀ i, r[i]? = if it ≤ i ∧ i < it + n then some x else buf[i]? := by
  intro n
  induction n with
  | zero =>
    intro buf it _
    refine ⟨buf, rfl, rfl, fun i => ?_⟩
    have h0 : ¬ (it ≤ i ∧ i < it + 0) := by omega
    rw [if_neg h0]
  | succ n ih =>
    intro buf it h
    have hlt : it < buf.length := by omega
    obtain ⟨r, hr, hlen, hget⟩ := ih (buf.set it x) (it + 1) (by simp; omega)
    refine ⟨r, ?_, by simpa using hlen, ?_⟩
    · simp only [fill_loop, store_ok buf it x hlt, ok_bind]
      exact hr
    · intro i
      rw [hget i, List.getElem?_set]
      by_cases h1 : it = i
      · subst h1
        simp [hlt]
      · by_cases h2 : it + 1 ≤ i ∧ i < it + 1 + n
        · have h3 : it ≤ i ∧ i < it + (n + 1) := by omega
          simp [h2, h3]
        · have h3 : ¬ (it ≤ i ∧ i < it + (n + 1)) := by omega
          simp [h1, h2, h3]

theorem getElem?_get_self {α : Type} (buf : List α) (i : Nat) (h : i < buf.length) :
    buf[i]? = some (buf.get ⟨i, h⟩) := by
  simp [List.getElem?_eq_getElem h]

theorem std_move_loop_spec {α : Type} (src : List α) :
    ∀ (n first : Nat) (dst : List α) (d_first : Nat),
      first + n ≤ src.length → d_first + n ≤ dst.length →
      ∃ r, std_move_loop src n first dst d_first = .ok r ∧ r.length = dst.length ∧
        ∀ i, r[i]? = if d_first ≤ i ∧ i < d_first + n then src[first + (i - d_first)]?
                     else dst[i]? := by
  intro n
  induction n with
  | zero =>
    intro first dst d_first _ _
    refine ⟨dst, rfl, rfl, fun i => ?_⟩
    have h0 : ¬ (d_first ≤ i ∧ i < d_first + 0) := by omega
    rw [if_neg h0]
  | succ n ih =>
    intro first dst d_first hs hd
    have hsl : first < src.length := by omega
    have hdl : d_first < dst.length := by omega
    obtain ⟨r, hr, hlen, hget⟩ :=
      ih (first + 1) (dst.set d_first (src.get ⟨first, hsl⟩)) (d_first + 1)
        (by omega) (by simp; omega)
    refine ⟨r, ?_, by simpa using hlen, ?_⟩
    · simp only [std_move_loop, load_ok src first hsl, store_ok dst d_first _ hdl, ok_bind]
      exact hr
    · intro i
      rw [hget i, List.getElem?_set]
      by_cases h1 : d_first = i
      · subst h1
        have h2 : ¬ (d_first + 1 ≤ d_first ∧ d_first < d_first + 1 + n) := by omega
        have h3 : d_first ≤ d_first ∧ d_first < d_first + (n + 1) := by omega
        rw [if_neg h2, if_pos h3, if_pos rfl, if_pos hdl]
        simp [getElem?_get_self src first hsl]
      · by_cases h2 : d_first + 1 ≤ i ∧ i < d_first + 1 + n
        · have h3 : d_first ≤ i ∧ i < d_first + (n + 1) := by omega
          have h4 : first + 1 + (i - (d_first + 1)) = first + (i - d_first) := by omega
          rw [if_pos h2, if_pos h3, h4]
        · have h3 : ¬ (d_first ≤ i ∧ i < d_first + (n + 1)) := by omega
          rw [if_neg h2, if_neg h3, if_neg h1]

theorem std_move_within_loop_spec {α : Type} :
    ∀ (n : Nat) (buf : List α) (first d_first : Nat),
      first = d_first + 1 → d_first + 1 + n ≤ buf.length →
      ∃ r, std_move_within_loop n buf first d_first = .ok r ∧ r.length = buf.length ∧
        ∀ i, r[i]? = if d_first ≤ i ∧ i < d_first + n then buf[i + 1]? else buf[i]? := by
  intro n
  induction n with
  | zero =>
    intro buf first d_first _ _
    refine ⟨buf, rfl, rfl, fun i => ?_⟩
    have h0 : ¬ (d_first ≤ i ∧ i < d_first + 0) := by omega
    rw [if_neg h0]
  | succ n ih =>
    intro buf first d_first hf hb
    subst hf
    have hsl : d_first + 1 < buf.length := by omega
    have hdl : d_first < buf.length := by omega
    obtain ⟨r, hr, hlen, hget⟩ :=
      ih (buf.set d_first (buf.get ⟨d_first + 1, hsl⟩)) (d_first + 1 + 1) (d_first + 1)
        rfl (by simp; omega)
    refine ⟨r, ?_, by simpa using hlen, ?_⟩
    · simp only [std_move_within_loop, load_ok buf _ hsl, store_ok buf d_first _ hdl, ok_bind]
      exact hr
    · intro i
      rw [hget i, List.getElem?_set, List.getElem?_set]
      by_cases h1 : d_first = i
      · subst h1
        have h2 : ¬ (d_first + 1 ≤ d_first ∧ d_first < d_first + 1 + n) := by omega
        have h3 : d_first ≤ d_first ∧ d_first < d_first + (n + 1) := by omega
        rw [if_neg h2, if_pos h3, if_pos rfl, if_pos hdl]
        simp [getElem?_get_self buf (d_first + 1) hsl]
      · by_cases h2 : d_first + 1 ≤ i ∧ i < d_first + 1 + n
        · have h3 : d_first ≤ i ∧ i < d_first + (n + 1) := by omega
          have h4 : ¬ d_first = i + 1 := by omega
          rw [if_pos h2, if_pos h3, if_neg h4]
        · have h3 : ¬ (d_first ≤ i ∧ i < d_first + (n + 1)) := by omega
          rw [if_neg h2, if_neg h3, if_neg h1]

theorem std_copy_backward_loop_spec {α : Type} :
    ∀ (n : Nat) (buf : List α) (last d_last : Nat),
      d_last = last + 1 → n ≤ last → last + 1 ≤ buf.length →
      ∃ r, std_copy_backward_loop n buf last d_last = .ok r ∧ r.length = buf.length ∧
        ∀ i, r[i]? = if last < i + n ∧ i ≤ last then buf[i - 1]? else buf[i]? := by
  intro n
  induction n with
  | zero =>
    intro buf last d_last _ _ _
    refine ⟨buf, rfl, rfl, fun i => ?_⟩
    have h0 : ¬ (last < i + 0 ∧ i ≤ last) := by omega
    rw [if_neg h0]
  | succ n ih =>
    intro buf last d_last hd hn hb
    subst hd
    have hsl : last - 1 < buf.length := by omega
    have hdl : last < buf.length := by omega
    obtain ⟨r, hr, hlen, hget⟩ :=
      ih (buf.set last (buf.get ⟨last - 1, hsl⟩)) (last - 1) last
        (by omega) (by omega) (by simp; omega)
    refine ⟨r, ?_, by simpa using hlen, ?_⟩
    · simp only [std_copy_backward_loop, ptr_sub_ok last 1 (by omega),
        ptr_sub_ok (last + 1) 1 (by omega), ok_bind, Nat.add_sub_cancel,
        load_ok buf _ hsl, store_ok buf last _ hdl]
      exact hr
    · intro i
      rw [hget i, List.getElem?_set, List.getElem?_set]
      by_cases h1 : last = i
      · subst h1
        have h2 : ¬ (last - 1 < last + n ∧ last ≤ last - 1) := by omega
        have h3 : last < last + (n + 1) ∧ last ≤ last := by omega
        rw [if_neg h2, if_pos h3, if_pos rfl, if_pos hdl]
        simp [getElem?_get_self buf (last - 1) hsl]
      · by_cases h2 : last - 1 < i + n ∧ i ≤ last - 1
        · have h3 : last < i + (n + 1) ∧ i ≤ last := by omega
          have h4 : ¬ last = i - 1 := by omega
          rw [if_pos h2, if_pos h3, if_neg h4]
        · have h3 : ¬ (last < i + (n + 1) ∧ i ≤ last) := by omega
          rw [if_neg h2, if_neg h3, if_neg h1]

theorem fill_range_spec {α : Type} (x : α) (buf : List α) (first last : Nat)
    (h1 : first ≤ last) (h2 : last ≤ buf.length) :
    ∃ r, fill_range buf first last x = .ok r ∧ r.length = buf.length ∧
      ∀ i, r[i]? = if first ≤ i ∧ i < last then some x else buf[i]? := by
  obtain ⟨r, hr, hlen, hget⟩ := fill_loop_spec x (last - first) buf first (by omega)
  refine ⟨r, ?_, hlen, ?_⟩
  · simp only [fill_range, if_neg (Nat.not_lt.mpr h1)]
    exact hr
  · intro i
    rw [hget i]
    have e : first + (last - first) = last := by omega
    rw [e]

/-! ## ArrayPtr -/

theorem ArrayPtr_Resize_spec {α : Type} [Inhabited α] (p : ArrayPtr α) (old_size new_size : Nat)
    (h1 : old_size ≤ p.array_.length) (h2 : old_size ≤ new_size) :
    ∃ q, p.Resize old_size new_size = .ok q ∧ q.array_.length = new_size ∧
      ∀ i, q.array_[i]? = if i < old_size then p.array_[i]?
                          else if i < new_size then some default else none := by
  obtain ⟨r, hr, hlen, hget⟩ :=
    std_move_loop_spec p.array_ old_size 0 (List.replicate new_size default) 0
      (by omega) (by simp; omega)
  refine ⟨⟨r⟩, ?_, by simpa using hlen, ?_⟩
  · simp only [ArrayPtr.Resize, std_move, Nat.zero_add, Nat.not_lt_zero, if_false, Nat.sub_zero,
      hr, ok_bind]
    rfl
  · intro i
    simp only [hget i, Nat.zero_add, Nat.zero_le, true_and, Nat.sub_zero]
    by_cases h3 : i < old_size
    · rw [if_pos h3, if_pos h3]
    · rw [if_neg h3, if_neg h3]
      by_cases h4 : i < new_size
      · rw [if_pos h4]
        simp [List.getElem?_replicate, h4]
      · rw [if_neg h4]
        simp [List.getElem?_replicate, h4]

/-! ## SimpleVector::Resize -/

namespace SimpleVector

variable {α : Type}

theorem Resize_spec [Inhabited α] (v : SimpleVector α) (n : Nat) (h : v.Inv) :
    ∃ w, v.Resize n = .ok w ∧ w.size_ = n ∧
      w.capacity_ = (if n ≤ v.capacity_ then v.capacity_ else max n (size_mul v.capacity_ 2)) ∧
      w.array_ptr_.array_.length = w.capacity_ ∧
      ∀ i, i < n → w.array_ptr_.array_[i]? =
        if i < v.size_ then v.array_ptr_.array_[i]? else some default := by
  obtain ⟨hlen, hsz, _⟩ := h
  by_cases c1 : n = v.size_
  · refine ⟨v, by simp [Resize, c1], c1.symm, ?_, hlen, ?_⟩
    · rw [if_pos (by omega)]
    · intro i hi
      rw [if_pos (by omega)]
  by_cases c2 : n < v.size_
  · refine ⟨{ v with size_ := n }, by simp [Resize, c1, c2], rfl, ?_, hlen, ?_⟩
    · rw [if_pos (by omega)]
    · intro i hi
      rw [if_pos (by omega)]
  by_cases c3 : n > v.size_ ∧ n ≤ v.capacity_
  · obtain ⟨r, hr, hrl, hget⟩ :=
      fill_range_spec (default : α) v.array_ptr_.array_ v.size_ n (by omega) (by omega)
    refine ⟨{ v with array_ptr_ := ⟨r⟩, size_ := n }, ?_, rfl, ?_, ?_, ?_⟩
    · simp only [Resize, if_neg c1, if_neg c2, if_pos c3, ArrayPtr.GetRawPtr, Nat.zero_add, hr,
        ok_bind]
      rfl
    · rw [if_pos c3.2]
    · show r.length = v.capacity_
      omega
    · intro i hi
      show r[i]? = _
      rw [hget i]
      by_cases c4 : i < v.size_
      · rw [if_neg (by omega), if_pos c4]
      · rw [if_pos (by omega), if_neg c4]
  · have c4 : n > v.capacity_ := by omega
    obtain ⟨q, hq, hql, hqget⟩ :=
      ArrayPtr_Resize_spec v.array_ptr_ v.size_ (max n (size_mul v.capacity_ 2))
        (by omega) (by omega)
    obtain ⟨r, hr, hrl, hget⟩ :=
      fill_range_spec (default : α) q.array_ v.size_ n (by omega) (by omega)
    refine ⟨{ array_ptr_ := ⟨r⟩, size_ := n, capacity_ := max n (size_mul v.capacity_ 2) },
      ?_, rfl, ?_, ?_, ?_⟩
    · simp only [Resize, if_neg c1, if_neg c2, if_neg c3, if_pos c4, hq, ArrayPtr.GetRawPtr,
        Nat.zero_add, hr, ok_bind]
      rfl
    · rw [if_neg (by omega)]
    · show r.length = max n (size_mul v.capacity_ 2)
      rw [hrl, hql]
    · intro i hi
      show r[i]? = _
      rw [hget i, hqget i]
      by_cases c5 : i < v.size_
      · rw [if_neg (by omega), if_pos c5, if_pos c5]
      · rw [if_pos (by omega), if_neg c5]

theorem Resize_inv [Inhabited α] (v w : SimpleVector α) (n : Nat) (h : v.Inv)
    (hn : n < SIZE_MOD) (hw : v.Resize n = .ok w) : w.Inv := by
  obtain ⟨w1, hw1, hsz, hcap, hlen, _⟩ := Resize_spec v n h
  rw [hw1] at hw
  cases hw
  refine ⟨hlen, ?_, ?_⟩
  · rw [hsz, hcap]
    split <;> omega
  · rw [hcap]
    have := h.2.2
    simp only [size_mul, SIZE_MOD] at *
    split <;> omega

theorem live_getElem? (v : SimpleVector α) (i : Nat) :
    v.live[i]? = if i < v.size_ then v.array_ptr_.array_[i]? else none := by
  simp only [live, List.getElem?_take]

theorem live_length (v : SimpleVector α) (h : v.Inv) : v.live.length = v.size_ := by
  obtain ⟨hlen, hsz, _⟩ := h
  simp only [live, List.length_take]
  omega

theorem size_add_one (a : Nat) (h : a + 1 < SIZE_MOD) : size_add a 1 = a + 1 := by
  simp only [size_add, SIZE_MOD] at *
  omega

theorem size_dec_pos (a : Nat) (h0 : 0 < a) (h : a < SIZE_MOD) : size_dec a = a - 1 := by
  simp only [size_dec, SIZE_MOD] at *
  omega

theorem size_mul_two (a : Nat) (h : a * 2 < SIZE_MOD) : size_mul a 2 = a * 2 := by
  simp only [size_mul, SIZE_MOD] at *
  omega

/-! ## SimpleVector::PushBack -/

theorem PushBackMove_eq [Inhabited α] (v : SimpleVector α) (x : α) :
    v.PushBackMove x = v.PushBack x := rfl

theorem PushBack_spec [Inhabited α] (v : SimpleVector α) (x : α) (h : v.Inv)
    (hs : v.size_ + 1 < SIZE_MOD) :
    ∃ w, v.PushBack x = .ok w ∧ w.size_ = v.size_ + 1 ∧ w.live = v.live ++ [x] ∧
      w.capacity_ = (if v.size_ = v.capacity_ then max (v.size_ + 1) (size_mul v.capacity_ 2)
                     else v.capacity_) ∧
      w.array_ptr_.array_.length = w.capacity_ := by
  have hlive := live_length v h
  obtain ⟨hlen, hsz, hcap⟩ := h
  by_cases hfull : v.size_ = v.capacity_
  · obtain ⟨w1, hw1, hsz1, hcap1, hlen1, hget1⟩ := Resize_spec v (v.size_ + 1) ⟨hlen, hsz, hcap⟩
    rw [if_neg (by omega)] at hcap1
    have hp : ptr_sub w1.end_ 1 = .ok v.size_ := by
      simp [end_, hsz1, ptr_sub]
    have hlt : v.size_ < w1.array_ptr_.array_.length := by
      rw [hlen1, hcap1]; omega
    have hst := store_ok w1.array_ptr_.array_ v.size_ x hlt
    refine ⟨{ w1 with array_ptr_ := ⟨w1.array_ptr_.array_.set v.size_ x⟩ }, ?_, hsz1, ?_, ?_, ?_⟩
    · simp only [PushBack, if_pos hfull, size_add_one _ hs, hw1, ok_bind, hp,
        ArrayPtr.GetRawPtr, hst]
      rfl
    · apply List.ext_getElem?
      intro i
      rw [live_getElem?, List.getElem?_append, hlive, live_getElem?]
      show (if i < w1.size_ then (w1.array_ptr_.array_.set v.size_ x)[i]? else none) = _
      rw [hsz1, List.getElem?_set]
      by_cases c1 : i < v.size_
      · rw [if_pos (by omega), if_neg (by omega), hget1 i (by omega), if_pos c1, if_pos c1,
          if_pos c1]
      · by_cases c2 : i = v.size_
        · subst c2
          rw [if_pos (by omega), if_pos rfl, if_pos hlt, if_neg c1]
          simp
        · rw [if_neg (by omega), if_neg c1]
          have : i - v.size_ ≠ 0 := by omega
          simp [List.getElem?_cons, this]
    · rw [if_pos hfull]
      exact hcap1
    · show (w1.array_ptr_.array_.set v.size_ x).length = w1.capacity_
      simpa using hlen1
  · have hlt : v.size_ < v.array_ptr_.array_.length := by omega
    have hst := store_ok v.array_ptr_.array_ v.size_ x hlt
    refine ⟨{ v with array_ptr_ := ⟨v.array_ptr_.array_.set v.size_ x⟩, size_ := v.size_ + 1 },
      ?_, rfl, ?_, ?_, ?_⟩
    · simp only [PushBack, if_neg hfull, size_add_one _ hs, ok_bind, end_, Nat.zero_add,
        ArrayPtr.GetRawPtr, hst]
      rfl
    · apply List.ext_getElem?
      intro i
      rw [live_getElem?, List.getElem?_append, hlive, live_getElem?]
      show (if i < v.size_ + 1 then (v.array_ptr_.array_.set v.size_ x)[i]? else none) = _
      rw [List.getElem?_set]
      by_cases c1 : i < v.size_
      · rw [if_pos (by omega), if_neg (by omega), if_pos c1, if_pos c1]
      · by_cases c2 : i = v.size_
        · subst c2
          rw [if_pos (by omega), if_pos rfl, if_pos hlt, if_neg c1]
          simp
        · rw [if_neg (by omega), if_neg c1]
          have : i - v.size_ ≠ 0 := by omega
          simp [List.getElem?_cons, this]
    · rw [if_neg hfull]
    · show (v.array_ptr_.array_.set v.size_ x).length = v.capacity_
      simpa using hlen

/-! ## SimpleVector::Insert -/

theorem insert_getElem? (s : List α) (k : Nat) (x : α) (hk : k ≤ s.length) (i : Nat) :
    (s.take k ++ x :: s.drop k)[i]? =
      if i < k then s[i]? else if i = k then some x else s[i - 1]? := by
  have hl : (s.take k).length = k := by simp only [List.length_take]; omega
  rw [List.getElem?_append, hl]
  by_cases c1 : i < k
  · rw [if_pos c1, if_pos c1, List.getElem?_take, if_pos c1]
  · rw [if_neg c1, if_neg c1, List.getElem?_cons]
    by_cases c2 : i = k
    · rw [if_pos (by omega), if_pos c2]
    · rw [if_neg (by omega), if_neg c2, List.getElem?_drop]
      have e : k + (i - k - 1) = i - 1 := by omega
      rw [e]

theorem shift_store (b : List α) (k m : Nat) (x : α) (hk : k ≤ m) (hm : m + 1 ≤ b.length) :
    ∃ r, std_copy_backward b k m (m + 1) = .ok r ∧ store r k x = .ok (r.set k x) ∧
      (r.set k x).length = b.length ∧
      ∀ i, (r.set k x)[i]? =
        if i < k then b[i]? else if i = k then some x else if i ≤ m then b[i - 1]? else b[i]? := by
  obtain ⟨r, hr, hlen, hget⟩ :=
    std_copy_backward_loop_spec (m - k) b m (m + 1) rfl (by omega) hm
  have hkl : k < r.length := by omega
  refine ⟨r, ?_, store_ok r k x hkl, by simpa using hlen, ?_⟩
  · simp only [std_copy_backward, if_neg (Nat.not_lt.mpr hk)]
    exact hr
  · intro i
    rw [List.getElem?_set, hget i]
    by_cases c1 : i < k
    · rw [if_neg (by omega), if_neg (by omega), if_pos c1]
    · by_cases c2 : i = k
      · subst c2
        rw [if_pos rfl, if_pos hkl, if_neg c1, if_pos rfl]
      · rw [if_neg (by omega), if_neg c1, if_neg c2]
        by_cases c3 : i ≤ m
        · rw [if_pos (by omega), if_pos c3]
        · rw [if_neg (by omega), if_neg c3]

theorem Insert_spec [Inhabited α] (v : SimpleVector α) (k : Nat) (x : α) (h : v.Inv)
    (hk : k ≤ v.size_) (hs : v.size_ + 1 < SIZE_MOD) :
    ∃ w, v.Insert k x = .ok (w, k) ∧ w.size_ = v.size_ + 1 ∧
      w.live = v.live.take k ++ x :: v.live.drop k ∧
      w.capacity_ = (if v.size_ = v.capacity_ then max (v.size_ + 1) (size_mul v.capacity_ 2)
                     else v.capacity_) ∧
      w.array_ptr_.array_.length = w.capacity_ := by
  have hlive := live_length v h
  obtain ⟨hlen, hsz, hcap⟩ := h
  by_cases hfull : v.size_ = v.capacity_
  · obtain ⟨w1, hw1, hsz1, hcap1, hlen1, hget1⟩ := Resize_spec v (v.size_ + 1) ⟨hlen, hsz, hcap⟩
    rw [if_neg (by omega)] at hcap1
    have hp : ptr_sub (v.size_ + 1) 1 = .ok v.size_ := by
      simp [ptr_sub]
    have he : w1.end_ = v.size_ + 1 := by simp [end_, hsz1]
    obtain ⟨r, hr, hst, hrl, hget⟩ :=
      shift_store w1.array_ptr_.array_ k v.size_ x hk (by rw [hlen1, hcap1]; omega)
    refine ⟨{ w1 with array_ptr_ := ⟨r.set k x⟩ }, ?_, hsz1, ?_, ?_, ?_⟩
    · simp only [Insert, if_pos hfull, size_add_one _ hs, hw1, ok_bind, hp, he, begin_,
        Nat.zero_add, ArrayPtr.GetRawPtr, hr, hst]
      rfl
    · apply List.ext_getElem?
      intro i
      rw [insert_getElem? v.live k x (by omega) i, live_getElem?, live_getElem?, live_getElem?]
      show (if i < w1.size_ then (r.set k x)[i]? else none) = _
      rw [hsz1, hget i]
      by_cases c0 : i < v.size_ + 1
      · rw [if_pos c0]
        by_cases c1 : i < k
        · rw [if_pos c1, if_pos c1, hget1 i c0, if_pos (by omega), if_pos (by omega)]
        · rw [if_neg c1, if_neg c1]
          by_cases c2 : i = k
          · rw [if_pos c2, if_pos c2]
          · rw [if_neg c2, if_neg c2, if_pos (by omega), hget1 (i - 1) (by omega),
              if_pos (by omega), if_pos (by omega)]
      · rw [if_neg c0, if_neg (by omega), if_neg (by omega), if_neg (by omega)]
    · rw [if_pos hfull]
      exact hcap1
    · show (r.set k x).length = w1.capacity_
      omega
  · obtain ⟨r, hr, hst, hrl, hget⟩ :=
      shift_store v.array_ptr_.array_ k v.size_ x hk (by omega)
    refine ⟨{ v with array_ptr_ := ⟨r.set k x⟩, size_ := v.size_ + 1 }, ?_, rfl, ?_, ?_, ?_⟩
    · simp only [Insert, if_neg hfull, size_add_one _ hs, ok_bind, end_, begin_,
        Nat.zero_add, ArrayPtr.GetRawPtr, hr, hst]
      rfl
    · apply List.ext_getElem?
      intro i
      rw [insert_getElem? v.live k x (by omega) i, live_getElem?, live_getElem?, live_getElem?]
      show (if i < v.size_ + 1 then (r.set k x)[i]? else none) = _
      rw [hget i]
      by_cases c0 : i < v.size_ + 1
      · rw [if_pos c0]
        by_cases c1 : i < k
        · rw [if_pos c1, if_pos c1, if_pos (by omega)]
        · rw [if_neg c1, if_neg c1]
          by_cases c2 : i = k
          · rw [if_pos c2, if_pos c2]
          · rw [if_neg c2, if_neg c2, if_pos (by omega), if_pos (by omega)]
      · rw [if_neg c0, if_neg (by omega), if_neg (by omega), if_neg (by omega)]
    · rw [if_neg hfull]
    · show (r.set k x).length = v.capacity_
      omega

theorem InsertMove_spec [Inhabited α] (v : SimpleVector α) (k : Nat) (x : α) (h : v.Inv)
    (hk : k ≤ v.size_) (hs : v.capacity_ * 2 < SIZE_MOD)
    (hc : v.size_ < v.capacity_ ∨ 2 ≤ v.capacity_) :
    ∃ w, v.InsertMove k x = .ok (w, k) ∧ w.size_ = v.size_ + 1 ∧
      w.live = v.live.take k ++ x :: v.live.drop k ∧
      w.capacity_ = (if v.size_ = v.capacity_ then v.capacity_ * 2 else v.capacity_) ∧
      w.array_ptr_.array_.length = w.capacity_ := by
  have hlive := live_length v h
  obtain ⟨hlen, hsz, hcap⟩ := h
  have hs1 : v.size_ + 1 < SIZE_MOD := by simp only [SIZE_MOD] at *; omega
  by_cases hfull : v.size_ = v.capacity_
  · obtain ⟨w1, hw1, hsz1, hcap1, hlen1, hget1⟩ := Resize_spec v (v.size_ + 1) ⟨hlen, hsz, hcap⟩
    rw [if_neg (by omega), size_mul_two _ hs] at hcap1
    have hcap2 : w1.capacity_ = v.capacity_ * 2 := by omega
    have he : w1.end_ = v.size_ + 1 := by simp [end_, hsz1]
    obtain ⟨r, hr, hst, hrl, hget⟩ :=
      shift_store w1.array_ptr_.array_ k (v.size_ + 1) x (by omega) (by rw [hlen1, hcap2]; omega)
    refine ⟨{ w1 with array_ptr_ := ⟨r.set k x⟩ }, ?_, hsz1, ?_, ?_, ?_⟩
    · simp only [InsertMove, if_pos hfull, size_add_one _ hs1, hw1, ok_bind, he, begin_,
        Nat.zero_add, ArrayPtr.GetRawPtr, std_move_backward]
      simp only [std_copy_backward] at hr
      simp only [hr, ok_bind, hst]
      rfl
    · apply List.ext_getElem?
      intro i
      rw [insert_getElem? v.live k x (by omega) i, live_getElem?, live_getElem?, live_getElem?]
      show (if i < w1.size_ then (r.set k x)[i]? else none) = _
      rw [hsz1, hget i]
      by_cases c0 : i < v.size_ + 1
      · rw [if_pos c0]
        by_cases c1 : i < k
        · rw [if_pos c1, if_pos c1, hget1 i c0, if_pos (by omega), if_pos (by omega)]
        · rw [if_neg c1, if_neg c1]
          by_cases c2 : i = k
          · rw [if_pos c2, if_pos c2]
          · rw [if_neg c2, if_neg c2, if_pos (by omega), hget1 (i - 1) (by omega),
              if_pos (by omega), if_pos (by omega)]
      · rw [if_neg c0, if_neg (by omega), if_neg (by omega), if_neg (by omega)]
    · rw [if_pos hfull]
      exact hcap2
    · show (r.set k x).length = w1.capacity_
      omega
  · obtain ⟨r, hr, hst, hrl, hget⟩ :=
      shift_store v.array_ptr_.array_ k v.size_ x hk (by omega)
    refine ⟨{ v with array_ptr_ := ⟨r.set k x⟩, size_ := v.size_ + 1 }, ?_, rfl, ?_, ?_, ?_⟩
    · simp only [InsertMove, if_neg hfull, size_add_one _ hs1, ok_bind, end_, begin_,
        Nat.zero_add, ArrayPtr.GetRawPtr, std_move_backward]
      simp only [std_copy_backward] at hr
      simp only [hr, ok_bind, hst]
      rfl
    · apply List.ext_getElem?
      intro i
      rw [insert_getElem? v.live k x (by omega) i, live_getElem?, live_getElem?, live_getElem?]
      show (if i < v.size_ + 1 then (r.set k x)[i]? else none) = _
      rw [hget i]
      by_cases c0 : i < v.size_ + 1
      · rw [if_pos c0]
        by_cases c1 : i < k
        · rw [if_pos c1, if_pos c1, if_pos (by omega)]
        · rw [if_neg c1, if_neg c1]
          by_cases c2 : i = k
          · rw [if_pos c2, if_pos c2]
          · rw [if_neg c2, if_neg c2, if_pos (by omega), if_pos (by omega)]
      · rw [if_neg c0, if_neg (by omega), if_neg (by omega), if_neg (by omega)]
    · rw [if_neg hfull]
    · show (r.set k x).length = v.capacity_
      omega

theorem error_bind {ε β γ : Type} (e : ε) (f : β → Except ε γ) :
    ((Except.error e : Except ε β) >>= f) = .error e := rfl

theorem std_copy_backward_loop_overrun (n : Nat) (buf : List α) (last d_last : Nat)
    (h1 : 1 ≤ last) (h2 : buf.length + 1 ≤ d_last) :
    std_copy_backward_loop (n + 1) buf last d_last = .error Fault.UndefinedBehaviour := by
  simp only [std_copy_backward_loop, ptr_sub_ok last 1 h1, ptr_sub_ok d_last 1 (by omega),
    ok_bind]
  cases hl : load buf (last - 1) with
  | error e =>
    simp only [load] at hl
    split at hl
    · cases hl
    · cases hl
      rfl
  | ok y =>
    simp only [ok_bind, store_fault buf (d_last - 1) y (by omega), error_bind]

theorem InsertMove_fault [Inhabited α] (v : SimpleVector α) (k : Nat) (x : α) (h : v.Inv)
    (hk : k ≤ v.size_) (hfull : v.size_ = v.capacity_) (hc : v.capacity_ ≤ 1) :
    v.InsertMove k x = .error Fault.UndefinedBehaviour := by
  obtain ⟨w1, hw1, hsz1, hcap1, hlen1, _⟩ := Resize_spec v (v.size_ + 1) h
  rw [if_neg (by omega), size_mul_two _ (by simp only [SIZE_MOD]; omega)] at hcap1
  have hs1 : v.size_ + 1 < SIZE_MOD := by simp only [SIZE_MOD]; omega
  have he : w1.end_ = v.size_ + 1 := by simp [end_, hsz1]
  have hn : v.size_ + 1 - k = (v.size_ - k) + 1 := by omega
  simp only [InsertMove, if_pos hfull, size_add_one _ hs1, hw1, ok_bind, he, begin_,
    Nat.zero_add, ArrayPtr.GetRawPtr, std_move_backward,
    if_neg (Nat.not_lt.mpr (Nat.le_succ_of_le hk)), hn]
  rw [std_copy_backward_loop_overrun _ _ _ _ (by omega) (by omega)]
  rfl

/-! ## SimpleVector::Erase -/

theorem erase_getElem? (s : List α) (k : Nat) (hk : k ≤ s.length) (i : Nat) :
    (s.take k ++ s.drop (k + 1))[i]? = if i < k then s[i]? else s[i + 1]? := by
  have hl : (s.take k).length = k := by simp only [List.length_take]; omega
  rw [List.getElem?_append, hl]
  by_cases c1 : i < k
  · rw [if_pos c1, if_pos c1, List.getElem?_take, if_pos c1]
  · rw [if_neg c1, if_neg c1, List.getElem?_drop]
    have e : k + 1 + (i - k) = i + 1 := by omega
    rw [e]

theorem Erase_spec (v : SimpleVector α) (k : Nat) (h : v.Inv) (hk : k < v.size_) :
    ∃ w, v.Erase k = .ok (w, k) ∧ w.size_ = v.size_ - 1 ∧
      w.live = v.live.take k ++ v.live.drop (k + 1) ∧
      w.capacity_ = v.capacity_ ∧ w.array_ptr_.array_.length = w.capacity_ := by
  have hlive := live_length v h
  obtain ⟨hlen, hsz, hcap⟩ := h
  obtain ⟨r, hr, hrl, hget⟩ :=
    std_move_within_loop_spec (v.size_ - (k + 1)) v.array_ptr_.array_ (k + 1) k rfl (by omega)
  have hd : size_dec v.size_ = v.size_ - 1 := size_dec_pos _ (by omega) (by omega)
  refine ⟨{ v with array_ptr_ := ⟨r⟩, size_ := v.size_ - 1 }, ?_, rfl, ?_, rfl, ?_⟩
  · simp only [Erase, begin_, end_, Nat.zero_add, ArrayPtr.GetRawPtr, std_move_within,
      if_neg (Nat.not_lt.mpr (Nat.succ_le_of_lt hk)), hr, ok_bind, hd]
    rfl
  · apply List.ext_getElem?
    intro i
    rw [erase_getElem? v.live k (by omega) i, live_getElem?, live_getElem?, live_getElem?]
    show (if i < v.size_ - 1 then r[i]? else none) = _
    rw [hget i]
    by_cases c0 : i < v.size_ - 1
    · rw [if_pos c0]
      by_cases c1 : i < k
      · rw [if_neg (by omega), if_pos c1, if_pos (by omega)]
      · rw [if_pos (by omega), if_neg c1, if_pos (by omega)]
    · rw [if_neg c0, if_neg (by omega), if_neg (by omega)]
  · show r.length = v.capacity_
    omega

theorem take_drop_insert (s : List α) (k : Nat) (x : α) (hk : k ≤ s.length) :
    (s.take k ++ x :: s.drop k).take k ++ (s.take k ++ x :: s.drop k).drop (k + 1) = s := by
  apply List.ext_getElem?
  intro i
  have hl : k ≤ (s.take k ++ x :: s.drop k).length := by
    simp only [List.length_append, List.length_take, List.length_cons, List.length_drop]
    omega
  rw [erase_getElem? _ k hl i]
  by_cases c1 : i < k
  · rw [if_pos c1, insert_getElem? s k x hk i, if_pos c1]
  · rw [if_neg c1, insert_getElem? s k x hk (i + 1), if_neg (by omega), if_neg (by omega)]
    rfl

end SimpleVector

/-! ## Block length is kept by every successful loop -/

theorem bind_eq_ok {ε β γ : Type} (m : Except ε β) (f : β → Except ε γ) (c : γ) :
    (m >>= f) = .ok c ↔ ∃ a, m = .ok a ∧ f a = .ok c := by
  cases m with
  | error e =>
    constructor
    · intro h
      cases h
    · rintro ⟨a, ha, _⟩
      cases ha
  | ok a =>
    constructor
    · intro h
      exact ⟨a, rfl, h⟩
    · rintro ⟨b, hb, hf⟩
      cases hb
      exact hf

theorem store_length {α : Type} (buf r : List α) (i : Nat) (x : α)
    (h : store buf i x = .ok r) : r.length = buf.length := by
  unfold store at h
  split at h
  · cases h
    simp
  · cases h

theorem fill_loop_length {α : Type} (x : α) :
    ∀ (n : Nat) (buf r : List α) (it : Nat), fill_loop n buf it x = .ok r →
      r.length = buf.length := by
  intro n
  induction n with
  | zero =>
    intro buf r it h
    cases h
    rfl
  | succ n ih =>
    intro buf r it h
    simp only [fill_loop, bind_eq_ok] at h
    obtain ⟨b1, h1, h2⟩ := h
    rw [ih b1 r (it + 1) h2, store_length buf b1 it x h1]

theorem std_move_loop_length {α : Type} (src : List α) :
    ∀ (n first : Nat) (dst r : List α) (d_first : Nat),
      std_move_loop src n first dst d_first = .ok r → r.length = dst.length := by
  intro n
  induction n with
  | zero =>
    intro first dst r d_first h
    cases h
    rfl
  | succ n ih =>
    intro first dst r d_first h
    simp only [std_move_loop, bind_eq_ok] at h
    obtain ⟨x, _, b1, h1, h2⟩ := h
    rw [ih (first + 1) b1 r (d_first + 1) h2, store_length dst b1 d_first x h1]

theorem std_move_within_loop_length {α : Type} :
    ∀ (n : Nat) (buf r : List α) (first d_first : Nat),
      std_move_within_loop n buf first d_first = .ok r → r.length = buf.length := by
  intro n
  induction n with
  | zero =>
    intro buf r first d_first h
    cases h
    rfl
  | succ n ih =>
    intro buf r first d_first h
    simp only [std_move_within_loop, bind_eq_ok] at h
    obtain ⟨x, _, b1, h1, h2⟩ := h
    rw [ih b1 r (first + 1) (d_first + 1) h2, store_length buf b1 d_first x h1]

theorem std_copy_backward_loop_length {α : Type} :
    ∀ (n : Nat) (buf r : List α) (last d_last : Nat),
      std_copy_backward_loop n buf last d_last = .ok r → r.length = buf.length := by
  intro n
  induction n with
  | zero =>
    intro buf r last d_last h
    cases h
    rfl
  | succ n ih =>
    intro buf r last d_last h
    simp only [std_copy_backward_loop, bind_eq_ok] at h
    obtain ⟨l1, _, d1, _, x, _, b1, h1, h2⟩ := h
    rw [ih b1 r l1 d1 h2, store_length buf b1 d1 x h1]

theorem std_copy_backward_length {α : Type} (buf r : List α) (first last d_last : Nat)
    (h : std_copy_backward buf first last d_last = .ok r) : r.length = buf.length := by
  unfold std_copy_backward at h
  split at h
  · cases h
  · exact std_copy_backward_loop_length _ _ _ _ _ h

theorem std_move_backward_length {α : Type} (buf r : List α) (first last d_last : Nat)
    (h : std_move_backward buf first last d_last = .ok r) : r.length = buf.length :=
  std_copy_backward_length buf r first last d_last h

theorem std_move_within_length {α : Type} (buf r : List α) (first last d_first : Nat)
    (h : std_move_within buf first last d_first = .ok r) : r.length = buf.length := by
  unfold std_move_within at h
  split at h
  · cases h
  · exact std_move_within_loop_length _ _ _ _ _ h

theorem std_move_length {α : Type} (src dst r : List α) (first last d_first : Nat)
    (h : std_move src first last dst d_first = .ok r) : r.length = dst.length := by
  unfold std_move at h
  split at h
  · cases h
  · exact std_move_loop_length _ _ _ _ _ _ h

theorem fill_range_length {α : Type} (buf r : List α) (first last : Nat) (x : α)
    (h : fill_range buf first last x = .ok r) : r.length = buf.length := by
  unfold fill_range at h
  split at h
  · cases h
  · exact fill_loop_length _ _ _ _ _ h

theorem ArrayPtr_Resize_length {α : Type} [Inhabited α] (p q : ArrayPtr α)
    (old_size new_size : Nat) (h : p.Resize old_size new_size = .ok q) :
    q.array_.length = new_size := by
  simp only [ArrayPtr.Resize, bind_eq_ok] at h
  obtain ⟨r, h1, h2⟩ := h
  cases h2
  simpa using std_move_length _ _ _ _ _ _ h1

/-! ## The representation invariant is kept by every operation -/

namespace SimpleVector

variable {α : Type}

theorem pure_eq_ok {ε β : Type} (a b : β) (h : (pure a : Except ε β) = .ok b) : a = b := by
  cases h
  rfl

theorem mk_default_inv : (mk_default : SimpleVector α).Inv := by
  refine ⟨rfl, Nat.le_refl _, ?_⟩
  show 0 < SIZE_MOD
  decide

theorem Reserve_inv [Inhabited α] (v w : SimpleVector α) (c : Nat) (h : v.Inv)
    (hc : c < SIZE_MOD) (hw : v.Reserve c = .ok w) : w.Inv := by
  obtain ⟨hlen, hsz, hcap⟩ := h
  unfold Reserve at hw
  split at hw
  · cases hw
    exact ⟨hlen, hsz, hcap⟩
  · simp only [bind_eq_ok] at hw
    obtain ⟨q, hq, hw⟩ := hw
    have := pure_eq_ok _ _ hw
    subst this
    exact ⟨ArrayPtr_Resize_length _ _ _ _ hq, by show v.size_ ≤ c; omega, hc⟩

theorem PushBack_inv [Inhabited α] (v w : SimpleVector α) (x : α) (h : v.Inv)
    (hw : v.PushBack x = .ok w) : w.Inv := by
  unfold PushBack at hw
  split at hw
  · simp only [bind_eq_ok] at hw
    obtain ⟨w1, h1, last, _, buf, h3, hw⟩ := hw
    have := pure_eq_ok _ _ hw
    subst this
    have hmod : size_add v.size_ 1 < SIZE_MOD := Nat.mod_lt _ (by decide)
    obtain ⟨hlen1, hsz1, hcap1⟩ := Resize_inv v w1 _ h hmod h1
    refine ⟨?_, hsz1, hcap1⟩
    show buf.length = w1.capacity_
    rw [store_length _ _ _ _ h3]
    exact hlen1
  · rename_i hne
    obtain ⟨hlen, hsz, hcap⟩ := h
    simp only [bind_eq_ok] at hw
    obtain ⟨buf, h3, hw⟩ := hw
    have := pure_eq_ok _ _ hw
    subst this
    refine ⟨?_, ?_, hcap⟩
    · show buf.length = v.capacity_
      rw [store_length _ _ _ _ h3]
      exact hlen
    · show size_add v.size_ 1 ≤ v.capacity_
      rw [size_add_one _ (by omega)]
      omega

theorem Insert_inv [Inhabited α] (v w : SimpleVector α) (k it : Nat) (x : α) (h : v.Inv)
    (hw : v.Insert k x = .ok (w, it)) : w.Inv := by
  unfold Insert at hw
  split at hw
  · simp only [bind_eq_ok] at hw
    obtain ⟨w1, h1, last, _, b1, h2, b2, h3, hw⟩ := hw
    have := pure_eq_ok _ _ hw
    simp only [Prod.mk.injEq] at this
    obtain ⟨this, _⟩ := this
    subst this
    have hmod : size_add v.size_ 1 < SIZE_MOD := Nat.mod_lt _ (by decide)
    obtain ⟨hlen1, hsz1, hcap1⟩ := Resize_inv v w1 _ h hmod h1
    refine ⟨?_, hsz1, hcap1⟩
    show b2.length = w1.capacity_
    rw [store_length _ _ _ _ h3, std_copy_backward_length _ _ _ _ _ h2]
    exact hlen1
  · rename_i hne
    obtain ⟨hlen, hsz, hcap⟩ := h
    simp only [bind_eq_ok] at hw
    obtain ⟨b1, h2, b2, h3, hw⟩ := hw
    have := pure_eq_ok _ _ hw
    simp only [Prod.mk.injEq] at this
    obtain ⟨this, _⟩ := this
    subst this
    refine ⟨?_, ?_, hcap⟩
    · show b2.length = v.capacity_
      rw [store_length _ _ _ _ h3, std_copy_backward_length _ _ _ _ _ h2]
      exact hlen
    · show size_add v.size_ 1 ≤ v.capacity_
      rw [size_add_one _ (by omega)]
      omega

theorem InsertMove_inv [Inhabited α] (v w : SimpleVector α) (k it : Nat) (x : α) (h : v.Inv)
    (hw : v.InsertMove k x = .ok (w, it)) : w.Inv := by
  unfold InsertMove at hw
  split at hw
  · simp only [bind_eq_ok] at hw
    obtain ⟨w1, h1, b1, h2, b2, h3, hw⟩ := hw
    have := pure_eq_ok _ _ hw
    simp only [Prod.mk.injEq] at this
    obtain ⟨this, _⟩ := this
    subst this
    have hmod : size_add v.size_ 1 < SIZE_MOD := Nat.mod_lt _ (by decide)
    obtain ⟨hlen1, hsz1, hcap1⟩ := Resize_inv v w1 _ h hmod h1
    refine ⟨?_, hsz1, hcap1⟩
    show b2.length = w1.capacity_
    rw [store_length _ _ _ _ h3, std_move_backward_length _ _ _ _ _ h2]
    exact hlen1
  · rename_i hne
    obtain ⟨hlen, hsz, hcap⟩ := h
    simp only [bind_eq_ok] at hw
    obtain ⟨b1, h2, b2, h3, hw⟩ := hw
    have := pure_eq_ok _ _ hw
    simp only [Prod.mk.injEq] at this
    obtain ⟨this, _⟩ := this
    subst this
    refine ⟨?_, ?_, hcap⟩
    · show b2.length = v.capacity_
      rw [store_length _ _ _ _ h3, std_move_backward_length _ _ _ _ _ h2]
      exact hlen
    · show size_add v.size_ 1 ≤ v.capacity_
      rw [size_add_one _ (by omega)]
      omega

theorem Erase_inv (v w : SimpleVector α) (k it : Nat) (h : v.Inv) (hk : k < v.size_)
    (hw : v.Erase k = .ok (w, it)) : w.Inv := by
  obtain ⟨hlen, hsz, hcap⟩ := h
  simp only [Erase, bind_eq_ok] at hw
  obtain ⟨b1, h2, hw⟩ := hw
  have := pure_eq_ok _ _ hw
  simp only [Prod.mk.injEq] at this
  obtain ⟨this, _⟩ := this
  subst this
  refine ⟨?_, ?_, hcap⟩
  · show b1.length = v.capacity_
    rw [std_move_within_length _ _ _ _ _ h2]
    exact hlen
  · show size_dec v.size_ ≤ v.capacity_
    rw [size_dec_pos _ (by omega) (by omega)]
    omega

theorem PopBack_inv (v : SimpleVector α) (h : v.Inv) : v.PopBack.Inv := by
  obtain ⟨hlen, hsz, hcap⟩ := h
  unfold PopBack
  split
  · exact ⟨hlen, hsz, hcap⟩
  · refine ⟨hlen, ?_, hcap⟩
    show size_dec v.size_ ≤ v.capacity_
    rw [size_dec_pos _ (by omega) (by omega)]
    omega

theorem Clear_inv (v : SimpleVector α) (h : v.Inv) : v.Clear.Inv :=
  ⟨h.1, Nat.zero_le _, h.2.2⟩

theorem mk_sized_inv [Inhabited α] (n : Nat) (w : SimpleVector α) (hn : n < SIZE_MOD)
    (hw : mk_sized n = .ok w) : w.Inv := by
  simp only [mk_sized, bind_eq_ok] at hw
  obtain ⟨b1, h1, hw⟩ := hw
  have := pure_eq_ok _ _ hw
  subst this
  refine ⟨?_, Nat.le_refl _, hn⟩
  show b1.length = n
  rw [fill_range_length _ _ _ _ _ h1]
  simp [ArrayPtr.GetRawPtr, ArrayPtr.mk_sized]

theorem mk_filled_inv [Inhabited α] (n : Nat) (x : α) (w : SimpleVector α) (hn : n < SIZE_MOD)
    (hw : mk_filled n x = .ok w) : w.Inv := by
  simp only [mk_filled, bind_eq_ok] at hw
  obtain ⟨b1, h1, hw⟩ := hw
  have := pure_eq_ok _ _ hw
  subst this
  refine ⟨?_, Nat.le_refl _, hn⟩
  show b1.length = n
  rw [fill_loop_length _ _ _ _ _ h1]
  simp [ArrayPtr.GetRawPtr, ArrayPtr.mk_sized]

theorem mk_init_inv [Inhabited α] (l : List α) (w : SimpleVector α) (hn : l.length < SIZE_MOD)
    (hw : mk_init l = .ok w) : w.Inv := by
  simp only [mk_init, bind_eq_ok] at hw
  obtain ⟨b1, h1, hw⟩ := hw
  have := pure_eq_ok _ _ hw
  subst this
  refine ⟨?_, Nat.le_refl _, hn⟩
  show b1.length = l.length
  rw [std_move_loop_length _ _ _ _ _ _ h1]
  simp [ArrayPtr.GetRawPtr, ArrayPtr.mk_sized]

theorem mk_copy_inv [Inhabited α] (v w : SimpleVector α) (h : v.Inv)
    (hw : mk_copy v = .ok w) : w.Inv := by
  obtain ⟨hlen, hsz, hcap⟩ := h
  simp only [mk_copy, bind_eq_ok] at hw
  obtain ⟨tmp, h1, b1, h2, hw⟩ := hw
  have := pure_eq_ok _ _ hw
  subst this
  obtain ⟨tlen, tsz, tcap⟩ := mk_sized_inv v.size_ tmp (by omega) h1
  have hcapt : tmp.capacity_ = v.size_ := by
    simp only [mk_sized, bind_eq_ok] at h1
    obtain ⟨b0, _, h1⟩ := h1
    have := pure_eq_ok _ _ h1
    subst this
    rfl
  refine ⟨?_, Nat.le_refl _, by show v.size_ < SIZE_MOD; omega⟩
  show b1.length = v.size_
  rw [std_move_length _ _ _ _ _ _ h2]
  show tmp.array_ptr_.array_.length = v.size_
  omega

theorem assign_copy_inv [Inhabited α] (v rhs w : SimpleVector α) (h : rhs.Inv)
    (hw : assign_copy v rhs = .ok w) : w.Inv := by
  simp only [assign_copy, bind_eq_ok] at hw
  obtain ⟨tmp, h1, hw⟩ := hw
  have := pure_eq_ok _ _ hw
  subst this
  exact mk_copy_inv rhs tmp h h1

theorem Reachable_inv [Inhabited α] (v : SimpleVector α) (h : Reachable v) : v.Inv := by
  induction h with
  | ctor_default => exact mk_default_inv
  | ctor_sized n w hn hw => exact mk_sized_inv n w hn hw
  | ctor_filled n x w hn hw => exact mk_filled_inv n x w hn hw
  | ctor_init l w hn hw => exact mk_init_inv l w hn hw
  | ctor_reserve c w hc hw => exact Reserve_inv _ w c mk_default_inv hc hw
  | ctor_copy v w _ hw ih => exact mk_copy_inv v w ih hw
  | ctor_move_target v _ ih => exact ih
  | ctor_move_source v _ _ => exact mk_default_inv
  | copy_assigned v rhs w _ _ hw _ ih2 => exact assign_copy_inv v rhs w ih2 hw
  | move_assigned_target v rhs _ _ _ ih2 => exact ih2
  | move_assigned_source v rhs _ _ _ _ => exact mk_default_inv
  | clear v _ ih => exact Clear_inv v ih
  | resize v w n _ hn hw ih => exact Resize_inv v w n ih hn hw
  | push_back v w x _ hw ih => exact PushBack_inv v w x ih hw
  | push_back_move v w x _ hw ih => exact PushBack_inv v w x ih hw
  | insert v w k it x _ _ hw ih => exact Insert_inv v w k it x ih hw
  | insert_move v w k it x _ _ hw ih => exact InsertMove_inv v w k it x ih hw
  | pop_back v _ ih => exact PopBack_inv v ih
  | erase v w k it _ hk hw ih => exact Erase_inv v w k it ih hk hw
  | reserve v w c _ hc hw ih => exact Reserve_inv v w c ih hc hw
  | swap_this v other _ _ _ ih2 => exact ih2
  | swap_other v other _ _ ih1 _ => exact ih1

theorem Insert_Erase_roundtrip [Inhabited α] (v : SimpleVector α) (k : Nat) (x : α)
    (h : v.Inv) (hk : k ≤ v.size_) (hs : v.size_ + 1 < SIZE_MOD) :
    ∃ w u, v.Insert k x = .ok (w, k) ∧ w.Erase k = .ok (u, k) ∧
      u.size_ = v.size_ ∧ u.live = v.live := by
  obtain ⟨w, hw, hsz, hlive, hcap, hlen⟩ := Insert_spec v k x h hk hs
  have hwinv : w.Inv := Insert_inv v w k k x h hw
  obtain ⟨u, hu, husz, hulive, _, _⟩ := Erase_spec w k hwinv (by omega)
  refine ⟨w, u, hw, hu, by omega, ?_⟩
  rw [hulive, hlive]
  exact take_drop_insert v.live k x (by rw [live_length v h]; exact hk)

/-! ## The claims -/

/-- C1: in every state reachable from a constructor through `Clear`, `Resize`, `PushBack`,
`Insert`, `PopBack`, `Erase`, `Reserve`, `swap`, copy and move, `size <= capacity` holds. -/
theorem C1_size_le_capacity [Inhabited α] (v : SimpleVector α) (h : Reachable v) :
    v.GetSize ≤ v.GetCapacity :=
  (Reachable_inv v h).2.1

theorem C1_size_le_capacity_witness :
    Reachable scenario_v5 ∧
      scenario_v5.GetSize ≤
        scenario_v5.GetCapacity :=
  have h0 : Reachable scenario_v3 :=
    Reachable.ctor_init [1, 2, 3] _ (by decide) rfl
  have h1 : Reachable scenario_v4 :=
    Reachable.push_back _ _ 4 h0 rfl
  have h2 : Reachable scenario_v5 :=
    Reachable.insert _ _ 1 1 99 h1 (by decide) rfl
  ⟨h2, C1_size_le_capacity _ h2⟩

/-- C2 (code defect): on a full vector of capacity 0 or 1 the move overload of `Insert` shifts
`[it, end())` to end at `end() + 1` after `Resize` has already grown `size_`, and so writes one
slot past the block, where the copy overload (which shifts `[it, end() - 1)` to end at `end()`)
yields the sequence the claim describes. -/
theorem C2_InsertMove_overruns_full_block :
    (mk_default : SimpleVector Nat).InsertMove 0 99 = .error Fault.UndefinedBehaviour ∧
    scenario_v1.InsertMove 0 99 = .error Fault.UndefinedBehaviour ∧
    scenario_v1.InsertMove 1 99 = .error Fault.UndefinedBehaviour ∧
    (mk_default : SimpleVector Nat).Insert 0 99 = .ok (ofBlock [99] 1, 0) ∧
    scenario_v1.Insert 0 99 = .ok (ofBlock [99, 7] 2, 0) ∧
    scenario_v1.Insert 1 99 = .ok (ofBlock [7, 99] 2, 1) :=
  ⟨rfl, rfl, rfl, rfl, rfl, rfl⟩

/-- C3 (code defect): `Erase(Insert(p, x))` with the move overload of `Insert` on the empty
default-constructed vector does not give back the original vector: the `Insert` writes past
its one-slot block.  With the copy overload the same round trip returns the empty sequence. -/
theorem C3_roundtrip_InsertMove_overruns :
    ((mk_default : SimpleVector Nat).InsertMove 0 99 >>= fun r => r.1.Erase r.2) =
      .error Fault.UndefinedBehaviour ∧
    ((mk_default : SimpleVector Nat).Insert 0 99 >>= fun r => r.1.Erase r.2) =
      .ok ({ array_ptr_ := ⟨[99]⟩, size_ := 0, capacity_ := 1 }, 0) :=
  ⟨rfl, rfl⟩

/-- C4: for a vector with live sequence `s` and an offset `k < size`, `Erase(begin() + k)`
leaves the live sequence `s[0..k) ++ s[k+1..size)`, decreases the size by exactly one, keeps
the capacity and returns the iterator at offset `k`. -/
theorem C4_Erase (v : SimpleVector α) (k : Nat) (h : v.Inv) (hk : k < v.GetSize) :
    ∃ w, v.Erase k = .ok (w, k) ∧
      w.live = v.live.take k ++ v.live.drop (k + 1) ∧
      w.GetSize + 1 = v.GetSize ∧ w.GetCapacity = v.GetCapacity := by
  obtain ⟨w, hw, hsz, hlive, hcap, _⟩ := Erase_spec v k h hk
  refine ⟨w, hw, hlive, ?_, hcap⟩
  simp only [GetSize] at *
  omega

theorem C4_Erase_witness :
    scenario_v5.Inv ∧
    1 < scenario_v5.GetSize ∧
    ∃ w, scenario_v5.Erase 1 = .ok (w, 1) ∧
      w.live = scenario_v5.live.take 1 ++
        scenario_v5.live.drop (1 + 1) ∧
      w.GetSize + 1 = scenario_v5.GetSize ∧
      w.GetCapacity = scenario_v5.GetCapacity :=
  ⟨by decide, by decide, C4_Erase _ 1 (by decide) (by decide)⟩

/-- Growth rule where the calls return: on a full vector (`size == capacity == c`) one
`PushBack` (either overload) or one copy `Insert` yields capacity `2c` when `c > 0` and `1`
when `c == 0`; on a vector with `size < capacity` they leave the capacity unchanged.  The move
overload of `Insert` follows the same rule on non-full vectors and on full vectors of
capacity at least 2. -/
theorem growth_rule [Inhabited α] (v : SimpleVector α) (k : Nat) (x : α) (h : v.Inv)
    (hk : k ≤ v.GetSize) (hs : v.GetCapacity * 2 < SIZE_MOD) :
    ∃ w1 w2, v.PushBack x = .ok w1 ∧ v.PushBackMove x = .ok w1 ∧ v.Insert k x = .ok (w2, k) ∧
      (v.GetSize = v.GetCapacity → 0 < v.GetCapacity →
        w1.GetCapacity = 2 * v.GetCapacity ∧ w2.GetCapacity = 2 * v.GetCapacity) ∧
      (v.GetSize = v.GetCapacity → v.GetCapacity = 0 →
        w1.GetCapacity = 1 ∧ w2.GetCapacity = 1) ∧
      (v.GetSize < v.GetCapacity →
        w1.GetCapacity = v.GetCapacity ∧ w2.GetCapacity = v.GetCapacity) ∧
      (v.GetSize < v.GetCapacity ∨ 2 ≤ v.GetCapacity →
        ∃ w3, v.InsertMove k x = .ok (w3, k) ∧
          w3.GetCapacity =
            if v.GetSize = v.GetCapacity then 2 * v.GetCapacity else v.GetCapacity) := by
  simp only [GetSize, GetCapacity] at *
  have hs1 : v.size_ + 1 < SIZE_MOD := by
    have := h.2.1
    simp only [SIZE_MOD] at *
    omega
  obtain ⟨w1, hw1, _, _, hc1, _⟩ := PushBack_spec v x h hs1
  obtain ⟨w2, hw2, _, _, hc2, _⟩ := Insert_spec v k x h hk hs1
  rw [size_mul_two _ hs] at hc1 hc2
  refine ⟨w1, w2, hw1, hw1, hw2, ?_, ?_, ?_, ?_⟩
  · intro hfull hpos
    rw [if_pos hfull] at hc1 hc2
    omega
  · intro hfull hzero
    rw [if_pos hfull] at hc1 hc2
    omega
  · intro hlt
    rw [if_neg (by omega)] at hc1 hc2
    omega
  · intro hc
    obtain ⟨w3, hw3, _, _, hc3, _⟩ := InsertMove_spec v k x h hk hs hc
    refine ⟨w3, hw3, ?_⟩
    rw [hc3]
    split <;> omega

theorem growth_rule_scenario :
    scenario_v3.Inv ∧ 1 ≤ scenario_v3.GetSize ∧ scenario_v3.GetCapacity * 2 < SIZE_MOD ∧
    ∃ w1 w2, scenario_v3.PushBack 4 = .ok w1 ∧ scenario_v3.PushBackMove 4 = .ok w1 ∧
      scenario_v3.Insert 1 4 = .ok (w2, 1) ∧
      (scenario_v3.GetSize = scenario_v3.GetCapacity → 0 < scenario_v3.GetCapacity →
        w1.GetCapacity = 2 * scenario_v3.GetCapacity ∧
        w2.GetCapacity = 2 * scenario_v3.GetCapacity) ∧
      (scenario_v3.GetSize = scenario_v3.GetCapacity → scenario_v3.GetCapacity = 0 →
        w1.GetCapacity = 1 ∧ w2.GetCapacity = 1) ∧
      (scenario_v3.GetSize < scenario_v3.GetCapacity →
        w1.GetCapacity = scenario_v3.GetCapacity ∧ w2.GetCapacity = scenario_v3.GetCapacity) ∧
      (scenario_v3.GetSize < scenario_v3.GetCapacity ∨ 2 ≤ scenario_v3.GetCapacity →
        ∃ w3, scenario_v3.InsertMove 1 4 = .ok (w3, 1) ∧
          w3.GetCapacity =
            if scenario_v3.GetSize = scenario_v3.GetCapacity then 2 * scenario_v3.GetCapacity
            else scenario_v3.GetCapacity) :=
  ⟨by decide, by decide, by decide, growth_rule _ 1 4 (by decide) (by decide) (by decide)⟩

/-- C8: `Resize(n)` sets the capacity to exactly `max(n, 2 * old capacity)` when
`n > old capacity` (from capacity 0 the new capacity is `n`), and leaves the capacity
unchanged when `n <= old capacity`. -/
theorem C8_Resize_capacity [Inhabited α] (v : SimpleVector α) (n : Nat) (h : v.Inv)
    (hs : v.GetCapacity * 2 < SIZE_MOD) :
    ∃ w, v.Resize n = .ok w ∧
      (v.GetCapacity < n → w.GetCapacity = max n (2 * v.GetCapacity)) ∧
      (v.GetCapacity < n → v.GetCapacity = 0 → w.GetCapacity = n) ∧
      (n ≤ v.GetCapacity → w.GetCapacity = v.GetCapacity) := by
  simp only [GetCapacity] at *
  obtain ⟨w, hw, _, hcap, _, _⟩ := Resize_spec v n h
  rw [size_mul_two _ hs] at hcap
  refine ⟨w, hw, ?_, ?_, ?_⟩
  · intro hlt
    rw [if_neg (by omega)] at hcap
    omega
  · intro hlt h0
    rw [if_neg (by omega)] at hcap
    omega
  · intro hle
    rw [if_pos hle] at hcap
    exact hcap

theorem C8_Resize_capacity_witness :
    scenario_v3.Inv ∧
    scenario_v3.GetCapacity * 2 < SIZE_MOD ∧
    ∃ w, scenario_v3.Resize 4 = .ok w ∧
      (scenario_v3.GetCapacity < 4 →
        w.GetCapacity = max 4 (2 * scenario_v3.GetCapacity)) ∧
      (scenario_v3.GetCapacity < 4 →
        scenario_v3.GetCapacity = 0 → w.GetCapacity = 4) ∧
      (4 ≤ scenario_v3.GetCapacity →
        w.GetCapacity = scenario_v3.GetCapacity) :=
  ⟨by decide, by decide, C8_Resize_capacity _ 4 (by decide) (by decide)⟩

/-- C10: `v.At(i)` fails with `OutOfRange` exactly when `i >= v.GetSize()`; when
`i < GetSize()` it returns the element `v[i]`, which is the `i`-th live element. -/
theorem C10_At (v : SimpleVector α) (i : Nat) (h : v.Inv) :
    (v.At i = .error Fault.OutOfRange ↔ v.GetSize ≤ i) ∧
    ((∃ e, v.At i = .error e) ↔ v.GetSize ≤ i) ∧
    (i < v.GetSize → v.At i = v.index i ∧ ∃ x, v.live[i]? = some x ∧ v.At i = .ok x) := by
  obtain ⟨hlen, hsz, _⟩ := h
  simp only [GetSize]
  by_cases c : i ≥ v.size_
  · have hAt : v.At i = .error Fault.OutOfRange := by simp only [At, if_pos c]
    refine ⟨⟨fun _ => c, fun _ => hAt⟩, ⟨fun _ => c, fun _ => ⟨_, hAt⟩⟩, fun hlt => ?_⟩
    omega
  · have hlt : i < v.array_ptr_.array_.length := by omega
    have hAt : v.At i = .ok (v.array_ptr_.array_.get ⟨i, hlt⟩) := by
      simp only [At, if_neg c, ArrayPtr.GetRawPtr, load_ok _ _ hlt]
    refine ⟨⟨fun hf => ?_, fun hge => ?_⟩, ⟨fun hf => ?_, fun hge => ?_⟩, fun _ => ⟨?_, _, ?_, hAt⟩⟩
    · rw [hAt] at hf
      cases hf
    · omega
    · obtain ⟨e, he⟩ := hf
      rw [hAt] at he
      cases he
    · omega
    · simp only [At, if_neg c, index]
    · rw [live_getElem?, if_pos (by omega)]
      exact getElem?_get_self _ _ hlt

theorem C10_At_witness :
    scenario_v4.Inv ∧
    ((scenario_v4.At 10 = .error Fault.OutOfRange ↔
      scenario_v4.GetSize ≤ 10) ∧
    ((∃ e, scenario_v4.At 10 = .error e) ↔
      scenario_v4.GetSize ≤ 10) ∧
    (10 < scenario_v4.GetSize →
      scenario_v4.At 10 =
        scenario_v4.index 10 ∧
      ∃ x, scenario_v4.live[10]? = some x ∧
        scenario_v4.At 10 = .ok x)) :=
  ⟨by decide, C10_At _ 10 (by decide)⟩

/-! ## Constructors, PopBack, swap, move -/

theorem live_of_full (l : List α) :
    ({ array_ptr_ := ⟨l⟩, size_ := l.length, capacity_ := l.length } : SimpleVector α).live = l := by
  simp [live]

theorem std_move_loop_overrun (src : List α) :
    ∀ (n first : Nat) (dst : List α) (d_first : Nat),
      d_first ≤ dst.length → dst.length < d_first + n →
      std_move_loop src n first dst d_first = .error Fault.UndefinedBehaviour := by
  intro n
  induction n with
  | zero =>
    intro first dst d_first h0 h
    omega
  | succ n ih =>
    intro first dst d_first h0 h
    simp only [std_move_loop]
    cases hl : load src first with
    | error e =>
      simp only [load] at hl
      split at hl
      · cases hl
      · cases hl
        rfl
    | ok y =>
      simp only [ok_bind]
      by_cases hd : d_first < dst.length
      · rw [store_ok dst d_first y hd, ok_bind]
        exact ih (first + 1) _ (d_first + 1) (by simp; omega) (by simp; omega)
      · rw [store_fault dst d_first y (by omega)]
        rfl

theorem ArrayPtr_Resize_overrun [Inhabited α] (p : ArrayPtr α) (old_size new_size : Nat)
    (h : new_size < old_size) :
    p.Resize old_size new_size = .error Fault.UndefinedBehaviour := by
  simp only [ArrayPtr.Resize, std_move, Nat.zero_add, Nat.not_lt_zero, if_false, Nat.sub_zero]
  rw [std_move_loop_overrun p.array_ old_size 0 _ 0 (Nat.zero_le _) (by simp; omega)]
  rfl

/-! ## The claims, continued -/

/-- C13: after `a.swap(b)` the size, capacity and live element sequence of `a` are those `b`
had before and those of `b` are those `a` had before; swapping twice restores both. -/
theorem C13_swap (a b : SimpleVector α) :
    (a.swap b).1.GetSize = b.GetSize ∧ (a.swap b).1.GetCapacity = b.GetCapacity ∧
    (a.swap b).1.live = b.live ∧
    (a.swap b).2.GetSize = a.GetSize ∧ (a.swap b).2.GetCapacity = a.GetCapacity ∧
    (a.swap b).2.live = a.live ∧
    (a.swap b).1 = b ∧ (a.swap b).2 = a ∧
    (a.swap b).1.swap (a.swap b).2 = (a, b) :=
  ⟨rfl, rfl, rfl, rfl, rfl, rfl, rfl, rfl, rfl⟩

/-- C15: move construction and move assignment from `s` (into a distinct object `t`) give the
target exactly the size, capacity and live element sequence `s` had, and leave `s` with
`GetSize() == 0` and `GetCapacity() == 0`. -/
theorem C15_move (s t : SimpleVector α) :
    (mk_move s).1.GetSize = s.GetSize ∧ (mk_move s).1.GetCapacity = s.GetCapacity ∧
    (mk_move s).1.live = s.live ∧
    (mk_move s).2.GetSize = 0 ∧ (mk_move s).2.GetCapacity = 0 ∧ (mk_move s).2.IsEmpty = true ∧
    (t.assign_move s).1.GetSize = s.GetSize ∧ (t.assign_move s).1.GetCapacity = s.GetCapacity ∧
    (t.assign_move s).1.live = s.live ∧
    (t.assign_move s).2.GetSize = 0 ∧ (t.assign_move s).2.GetCapacity = 0 ∧
    (t.assign_move s).2.IsEmpty = true :=
  ⟨rfl, rfl, rfl, rfl, rfl, rfl, rfl, rfl, rfl, rfl, rfl, rfl⟩

/-- C17: `PopBack()` on an empty vector returns it unchanged (size stays 0, no error); on a
non-empty vector the size decreases by exactly one and the first `size - 1` elements are
unchanged; the capacity is unchanged in both cases. -/
theorem C17_PopBack (v : SimpleVector α) (h : v.Inv) :
    (v.GetSize = 0 → v.PopBack = v ∧ v.PopBack.GetSize = 0) ∧
    (0 < v.GetSize → v.PopBack.GetSize + 1 = v.GetSize ∧
      v.PopBack.live = v.live.take (v.GetSize - 1) ∧
      ∀ i, i < v.GetSize - 1 → v.PopBack.index i = v.index i) ∧
    v.PopBack.GetCapacity = v.GetCapacity := by
  obtain ⟨hlen, hsz, hcap⟩ := h
  simp only [GetSize, GetCapacity]
  refine ⟨fun h0 => ?_, fun hpos => ?_, ?_⟩
  · have hp : v.PopBack = v := by simp only [PopBack, if_pos h0]
    rw [hp]
    exact ⟨rfl, h0⟩
  · have hd : size_dec v.size_ = v.size_ - 1 := size_dec_pos _ hpos (by omega)
    have hp : v.PopBack = { v with size_ := v.size_ - 1 } := by
      simp only [PopBack, if_neg (Nat.pos_iff_ne_zero.mp hpos), hd]
    rw [hp]
    refine ⟨by show v.size_ - 1 + 1 = v.size_; omega, ?_, fun i _ => rfl⟩
    show v.array_ptr_.array_.take (v.size_ - 1) = (v.array_ptr_.array_.take v.size_).take _
    rw [List.take_take, Nat.min_eq_left (Nat.sub_le _ _)]
  · unfold PopBack
    split <;> rfl

theorem C17_PopBack_witness :
    scenario_v4.Inv ∧
    ((scenario_v4.GetSize = 0 → scenario_v4.PopBack = scenario_v4 ∧ scenario_v4.PopBack.GetSize = 0) ∧
    (0 < scenario_v4.GetSize → scenario_v4.PopBack.GetSize + 1 = scenario_v4.GetSize ∧
      scenario_v4.PopBack.live = scenario_v4.live.take (scenario_v4.GetSize - 1) ∧
      ∀ i, i < scenario_v4.GetSize - 1 → scenario_v4.PopBack.index i = scenario_v4.index i) ∧
    scenario_v4.PopBack.GetCapacity = scenario_v4.GetCapacity) :=
  ⟨by decide, C17_PopBack scenario_v4 (by decide)⟩

/-- C18 (code defect): `ArrayPtr::Resize(old_size, new_size)` moves `old_size` elements into
the new block whatever `new_size` is, so with `new_size < old_size` it writes the slots
`new_size .. old_size - 1` past the new block, where the claim promises a block of `new_size`
slots holding the first `new_size` old elements.  With `new_size >= old_size` it returns the
block the claim describes. -/
theorem C18_ArrayPtr_Resize_shrink_overruns :
    (ArrayPtr.mk [1, 2, 3] : ArrayPtr Nat).Resize 3 1 = .error Fault.UndefinedBehaviour ∧
    (ArrayPtr.mk [1, 2, 3] : ArrayPtr Nat).Resize 3 2 = .error Fault.UndefinedBehaviour ∧
    (ArrayPtr.mk [1, 2, 3] : ArrayPtr Nat).Resize 3 0 = .error Fault.UndefinedBehaviour ∧
    (ArrayPtr.mk [1, 2, 3] : ArrayPtr Nat).Resize 3 3 = .ok ⟨[1, 2, 3]⟩ ∧
    (ArrayPtr.mk [1, 2, 3] : ArrayPtr Nat).Resize 3 5 = .ok ⟨[1, 2, 3, 0, 0]⟩ :=
  ⟨rfl, rfl, rfl, rfl, rfl⟩

/-- C19 (code defect): on a full vector of capacity 0 (capacity 1) the growth gives capacity
1 (capacity 2), and the move overload of `Insert` then shifts `[it, end())` to end at
`end() + 1`, whose first write goes to slot `end()`, that is slot 1 (slot 2): an index that
is not below the capacity after growth.  The copy overload stays inside the block. -/
theorem C19_InsertMove_slot_not_below_capacity :
    (∃ w, (mk_default : SimpleVector Nat).Resize 1 = .ok w ∧ w.GetCapacity = 1 ∧ w.end_ = 1 ∧
      store w.array_ptr_.GetRawPtr (w.end_ + 1 - 1) 0 = .error Fault.UndefinedBehaviour ∧
      std_move_backward w.array_ptr_.GetRawPtr 0 w.end_ (w.end_ + 1) =
        .error Fault.UndefinedBehaviour) ∧
    (mk_default : SimpleVector Nat).InsertMove 0 5 = .error Fault.UndefinedBehaviour ∧
    (∃ w, scenario_v1.Resize 2 = .ok w ∧ w.GetCapacity = 2 ∧ w.end_ = 2 ∧
      store w.array_ptr_.GetRawPtr (w.end_ + 1 - 1) 0 = .error Fault.UndefinedBehaviour ∧
      std_move_backward w.array_ptr_.GetRawPtr 1 w.end_ (w.end_ + 1) =
        .error Fault.UndefinedBehaviour) ∧
    scenario_v1.InsertMove 1 5 = .error Fault.UndefinedBehaviour ∧
    (mk_default : SimpleVector Nat).Insert 0 5 = .ok (ofBlock [5] 1, 0) ∧
    scenario_v1.Insert 1 5 = .ok (ofBlock [7, 5] 2, 1) :=
  ⟨⟨_, rfl, rfl, rfl, rfl, rfl⟩, rfl, ⟨_, rfl, rfl, rfl, rfl, rfl⟩, rfl, rfl, rfl⟩

/-! ## operator== -/

theorem beq_iff_forall [BEq α] :
    ∀ (l1 l2 : List α), List.beq l1 l2 = true ↔
      l1.length = l2.length ∧
        ∀ (i : Nat) (x y : α), l1[i]? = some x → l2[i]? = some y → (x == y) = true := by
  intro l1
  induction l1 with
  | nil =>
    intro l2
    cases l2 with
    | nil => simp [List.beq]
    | cons b bs => simp [List.beq]
  | cons a as ih =>
    intro l2
    cases l2 with
    | nil => simp [List.beq]
    | cons b bs =>
      rw [List.beq_cons₂, Bool.and_eq_true, ih bs]
      constructor
      · rintro ⟨hab, hlen, hall⟩
        refine ⟨by simp [hlen], ?_⟩
        intro i x y hx hy
        cases i with
        | zero =>
          simp only [List.getElem?_cons_zero, Option.some.injEq] at hx hy
          subst hx
          subst hy
          exact hab
        | succ j =>
          simp only [List.getElem?_cons_succ] at hx hy
          exact hall j x y hx hy
      · rintro ⟨hlen, hall⟩
        refine ⟨hall 0 a b (by simp) (by simp), by simpa using hlen, ?_⟩
        intro i x y hx hy
        exact hall (i + 1) x y (by simpa using hx) (by simpa using hy)

theorem beq_self [BEq α] (hrefl : ∀ x : α, (x == x) = true) (l : List α) :
    List.beq l l = true := by
  rw [beq_iff_forall]
  refine ⟨rfl, ?_⟩
  intro i x y hx hy
  rw [hx] at hy
  cases hy
  exact hrefl x

theorem std_equal_loop_spec [BEq α] (b1 b2 : List α) :
    ∀ (n first1 first2 : Nat), first1 + n ≤ b1.length → first2 + n ≤ b2.length →
      std_equal_loop b1 b2 n first1 first2 =
        .ok (List.beq ((b1.drop first1).take n) ((b2.drop first2).take n)) := by
  intro n
  induction n with
  | zero =>
    intro first1 first2 _ _
    simp [std_equal_loop, List.beq]
  | succ n ih =>
    intro first1 first2 h1 h2
    have hl1 : first1 < b1.length := by omega
    have hl2 : first2 < b2.length := by omega
    rw [List.drop_eq_getElem_cons hl1, List.drop_eq_getElem_cons hl2, List.take_succ_cons,
      List.take_succ_cons, List.beq_cons₂]
    simp only [std_equal_loop, load_ok b1 first1 hl1, load_ok b2 first2 hl2, ok_bind,
      List.get_eq_getElem]
    rw [ih (first1 + 1) (first2 + 1) (by omega) (by omega)]
    cases hxy : (b1[first1] == b2[first2]) with
    | true => simp
    | false => simp

theorem operator_eq_spec [BEq α] (pa pb : Nat) (a b : SimpleVector α) (ha : a.Inv) (hb : b.Inv)
    (halias : pa = pb → a = b) (hrefl : ∀ x : α, (x == x) = true) :
    operator_eq pa pb a b = .ok (List.beq a.live b.live) := by
  have hla := live_length a ha
  have hlb := live_length b hb
  by_cases c1 : pa = pb
  · have hab := halias c1
    subst hab
    simp only [operator_eq, if_pos c1, beq_self hrefl]
  by_cases c2 : a.GetSize ≠ b.GetSize
  · have hne : List.beq a.live b.live = false := by
      cases hbeq : List.beq a.live b.live with
      | false => rfl
      | true =>
        rw [beq_iff_forall] at hbeq
        simp only [GetSize] at c2
        omega
    simp only [operator_eq, if_neg c1, if_pos c2, hne]
  · have hsz : a.size_ = b.size_ := by
      simp only [GetSize] at c2
      omega
    simp only [operator_eq, if_neg c1, if_neg c2, std_equal, cbegin, cend, Nat.zero_add,
      Nat.not_lt_zero, if_false, Nat.sub_zero, ArrayPtr.GetRawPtr]
    rw [std_equal_loop_spec _ _ a.size_ 0 0 (by have := ha.1; have := ha.2.1; omega)
      (by have := hb.1; have := hb.2.1; omega)]
    simp only [List.drop_zero, live, hsz]

theorem not_lex_cons_of_gt [LinearOrder α] (x y : α) (l1 l2 : List α) (h : y < x) :
    ¬ List.Lex (· < ·) (x :: l1) (y :: l2) := by
  intro hlex
  cases hlex with
  | cons _ => exact lt_irrefl _ h
  | rel hr => exact lt_asymm h hr

theorem std_lexicographical_compare_loop_spec [LinearOrder α] (b1 b2 : List α) :
    ∀ (n first1 last1 first2 last2 : Nat), first1 ≤ last1 → first2 ≤ last2 →
      last1 ≤ b1.length → last2 ≤ b2.length → n = min (last1 - first1) (last2 - first2) →
      ∃ r, std_lexicographical_compare_loop b1 b2 n first1 last1 first2 last2 = .ok r ∧
        (r = true ↔ List.Lex (· < ·) ((b1.drop first1).take (last1 - first1))
          ((b2.drop first2).take (last2 - first2))) := by
  intro n
  induction n with
  | zero =>
    intro first1 last1 first2 last2 h1 h2 hb1 hb2 hn
    refine ⟨_, rfl, ?_⟩
    by_cases c1 : first1 = last1
    · subst c1
      by_cases c2 : first2 = last2
      · subst c2
        simp [List.Lex.not_nil_right]
      · have hl2 : first2 < b2.length := by omega
        have e2 : last2 - first2 = (last2 - (first2 + 1)) + 1 := by omega
        rw [List.drop_eq_getElem_cons hl2, e2, List.take_succ_cons]
        simp only [Nat.sub_self, List.take_zero, beq_self_eq_true, Bool.true_and, bne_iff_ne,
          ne_eq, c2, not_false_eq_true, true_iff]
        exact List.Lex.nil
    · have c2 : first2 = last2 := by omega
      subst c2
      simp [List.Lex.not_nil_right, c1]
  | succ n ih =>
    intro first1 last1 first2 last2 h1 h2 hb1 hb2 hn
    have hl1 : first1 < b1.length := by omega
    have hl2 : first2 < b2.length := by omega
    have e1 : last1 - first1 = (last1 - (first1 + 1)) + 1 := by omega
    have e2 : last2 - first2 = (last2 - (first2 + 1)) + 1 := by omega
    rw [List.drop_eq_getElem_cons hl1, List.drop_eq_getElem_cons hl2, e1, e2,
      List.take_succ_cons, List.take_succ_cons]
    simp only [std_lexicographical_compare_loop, load_ok b1 first1 hl1, load_ok b2 first2 hl2,
      ok_bind, List.get_eq_getElem]
    by_cases cx : b1[first1] < b2[first2]
    · rw [if_pos cx]
      exact ⟨true, rfl, by simp only [true_iff]; exact List.Lex.rel cx⟩
    · rw [if_neg cx]
      by_cases cy : b2[first2] < b1[first1]
      · rw [if_pos cy]
        refine ⟨false, rfl, ?_⟩
        simp only [Bool.false_eq_true, false_iff]
        exact not_lex_cons_of_gt _ _ _ _ cy
      · rw [if_neg cy]
        have hxy : b1[first1] = b2[first2] := le_antisymm (not_lt.mp cy) (not_lt.mp cx)
        obtain ⟨r, hr, hiff⟩ :=
          ih (first1 + 1) last1 (first2 + 1) last2 (by omega) (by omega) hb1 hb2 (by omega)
        refine ⟨r, hr, ?_⟩
        rw [hiff, hxy, List.Lex.cons_iff]

theorem operator_lt_spec [LinearOrder α] (a b : SimpleVector α) (ha : a.Inv) (hb : b.Inv) :
    operator_lt a b = .ok (decide (List.Lex (· < ·) a.live b.live)) := by
  obtain ⟨r, hr, hiff⟩ :=
    std_lexicographical_compare_loop_spec a.array_ptr_.array_ b.array_ptr_.array_
      (min (a.size_ - 0) (b.size_ - 0)) 0 a.size_ 0 b.size_ (Nat.zero_le _) (Nat.zero_le _)
      (by have := ha.1; have := ha.2.1; omega) (by have := hb.1; have := hb.2.1; omega) rfl
  have hd : r = decide (List.Lex (· < ·) a.live b.live) := by
    simp only [List.drop_zero, Nat.sub_zero] at hiff
    cases r with
    | true => exact (decide_eq_true (hiff.mp rfl)).symm
    | false =>
      symm
      apply decide_eq_false
      intro hl
      have := hiff.mpr hl
      cases this
  rw [← hd, ← hr]
  simp only [operator_lt, std_lexicographical_compare, cbegin, cend, Nat.zero_add,
    Nat.not_lt_zero, or_self, if_false, Nat.sub_zero, ArrayPtr.GetRawPtr]

theorem beq_true_iff_eq [BEq α] [LawfulBEq α] (l1 l2 : List α) :
    List.beq l1 l2 = true ↔ l1 = l2 := by
  constructor
  · intro h
    rw [beq_iff_forall] at h
    obtain ⟨hlen, hall⟩ := h
    apply List.ext_getElem?
    intro i
    by_cases c : i < l1.length
    · have h1 := getElem?_get_self l1 i c
      have h2 := getElem?_get_self l2 i (by omega)
      rw [h1, h2, eq_of_beq (hall i _ _ h1 h2)]
    · rw [List.getElem?_eq_none (by omega), List.getElem?_eq_none (by omega)]
  · intro h
    subst h
    exact beq_self (fun x => beq_self_eq_true x) l1

theorem lex_append_cons [LinearOrder α] (x : α) (t : List α) :
    ∀ l : List α, List.Lex (· < ·) l (l ++ x :: t) := by
  intro l
  induction l with
  | nil => exact List.Lex.nil
  | cons a as ih => exact List.Lex.cons ih

theorem operator_le_spec [LinearOrder α] (a b : SimpleVector α) (ha : a.Inv) (hb : b.Inv) :
    operator_le a b = .ok (!decide (List.Lex (· < ·) b.live a.live)) := by
  simp only [operator_le, operator_lt_spec b a hb ha, ok_bind]
  rfl

theorem operator_ge_spec [LinearOrder α] (a b : SimpleVector α) (ha : a.Inv) (hb : b.Inv) :
    operator_ge a b = .ok (!decide (List.Lex (· < ·) a.live b.live)) := by
  simp only [operator_ge, operator_lt_spec a b ha hb, ok_bind]
  rfl

/-- C12: over an element type whose `<` is a strict total order, `a < b` is the
lexicographic order of the two live sequences (a proper prefix is less than the longer
sequence); it is irreflexive and transitive, incomparability is transitive, exactly one of
`a < b`, `a == b`, `b < a` holds, and `a <= b`, `a > b`, `a >= b` agree with
`a < b || a == b`, `b < a` and `b < a || a == b`. -/
theorem C12_operator_lt [LinearOrder α] (pa pb : Nat) (a b c : SimpleVector α)
    (ha : a.Inv) (hb : b.Inv) (hc : c.Inv) (halias : pa = pb → a = b) :
    ∃ lt_ab lt_ba eq_ab,
      operator_lt a b = .ok lt_ab ∧ operator_lt b a = .ok lt_ba ∧
      operator_eq pa pb a b = .ok eq_ab ∧
      (lt_ab = true ↔ List.Lex (· < ·) a.live b.live) ∧
      (∀ (x : α) (t : List α), b.live = a.live ++ x :: t → lt_ab = true) ∧
      operator_lt a a = .ok false ∧
      (lt_ab = true → operator_lt b c = .ok true → operator_lt a c = .ok true) ∧
      (lt_ab = false → lt_ba = false →
        operator_lt b c = .ok false → operator_lt c b = .ok false →
        operator_lt a c = .ok false ∧ operator_lt c a = .ok false) ∧
      (lt_ab = true ∨ eq_ab = true ∨ lt_ba = true) ∧
      ¬ (lt_ab = true ∧ eq_ab = true) ∧ ¬ (lt_ab = true ∧ lt_ba = true) ∧
      ¬ (eq_ab = true ∧ lt_ba = true) ∧
      operator_le a b = .ok (lt_ab || eq_ab) ∧
      operator_gt a b = .ok lt_ba ∧
      operator_ge a b = .ok (lt_ba || eq_ab) := by
  have sto : IsStrictTotalOrder (List α) (List.Lex (· < ·)) := inferInstance
  have hab := operator_lt_spec a b ha hb
  have hba := operator_lt_spec b a hb ha
  have heq := operator_eq_spec pa pb a b ha hb halias (fun x => beq_self_eq_true x)
  have hE := beq_true_iff_eq a.live b.live
  have tri := sto.toIsTrichotomous.trichotomous a.live b.live
  have irr : ∀ l : List α, ¬ List.Lex (· < ·) l l := fun l => sto.toIsStrictOrder.toIsIrrefl.irrefl l
  have trans : ∀ l1 l2 l3 : List α, List.Lex (· < ·) l1 l2 → List.Lex (· < ·) l2 l3 →
      List.Lex (· < ·) l1 l3 := fun l1 l2 l3 => sto.toIsStrictOrder.toIsTrans.trans l1 l2 l3
  have asym : List.Lex (· < ·) a.live b.live → ¬ List.Lex (· < ·) b.live a.live :=
    fun h1 h2 => irr _ (trans _ _ _ h1 h2)
  refine ⟨_, _, _, hab, hba, heq, decide_eq_true_iff, ?_, ?_, ?_, ?_, ?_, ?_, ?_, ?_, ?_, ?_, ?_⟩
  · intro x t hbl
    rw [decide_eq_true_iff, hbl]
    exact lex_append_cons x t a.live
  · rw [operator_lt_spec a a ha ha, decide_eq_false (irr _)]
  · intro h1 h2
    rw [decide_eq_true_iff] at h1
    rw [operator_lt_spec b c hb hc] at h2
    have h2b : List.Lex (· < ·) b.live c.live := of_decide_eq_true (Except.ok.inj h2)
    rw [operator_lt_spec a c ha hc, decide_eq_true (trans _ _ _ h1 h2b)]
  · intro h1 h2 h3 h4
    rw [decide_eq_false_iff_not] at h1 h2
    rw [operator_lt_spec b c hb hc] at h3
    rw [operator_lt_spec c b hc hb] at h4
    have h3b : ¬ List.Lex (· < ·) b.live c.live := of_decide_eq_false (Except.ok.inj h3)
    have h4b : ¬ List.Lex (· < ·) c.live b.live := of_decide_eq_false (Except.ok.inj h4)
    have e1 : a.live = b.live := by
      rcases tri with t | t | t
      · exact absurd t h1
      · exact t
      · exact absurd t h2
    have e2 : b.live = c.live := by
      rcases sto.toIsTrichotomous.trichotomous b.live c.live with t | t | t
      · exact absurd t h3b
      · exact t
      · exact absurd t h4b
    rw [operator_lt_spec a c ha hc, operator_lt_spec c a hc ha, e1, e2,
      decide_eq_false (irr _)]
    exact ⟨rfl, rfl⟩
  · rcases tri with t | t | t
    · exact Or.inl (decide_eq_true t)
    · exact Or.inr (Or.inl (hE.mpr t))
    · exact Or.inr (Or.inr (decide_eq_true t))
  · rintro ⟨h1, h2⟩
    rw [decide_eq_true_iff] at h1
    rw [hE.mp h2] at h1
    exact irr _ h1
  · rintro ⟨h1, h2⟩
    rw [decide_eq_true_iff] at h1 h2
    exact asym h1 h2
  · rintro ⟨h1, h2⟩
    rw [decide_eq_true_iff] at h2
    rw [hE.mp h1] at h2
    exact irr _ h2
  · rw [operator_le_spec a b ha hb]
    congr 1
    by_cases p1 : List.Lex (· < ·) b.live a.live
    · have p2 : ¬ List.Lex (· < ·) a.live b.live := fun h => irr _ (trans _ _ _ h p1)
      have p3 : List.beq a.live b.live = false := by
        cases hb3 : List.beq a.live b.live with
        | false => rfl
        | true =>
          rw [hE.mp hb3] at p1
          exact absurd p1 (irr _)
      rw [decide_eq_true p1, decide_eq_false p2, p3]
      rfl
    · rw [decide_eq_false p1]
      rcases tri with t | t | t
      · rw [decide_eq_true t]
        rfl
      · rw [hE.mpr t]
        simp
      · exact absurd t p1
  · exact hba
  · rw [operator_ge_spec a b ha hb]
    congr 1
    by_cases p1 : List.Lex (· < ·) a.live b.live
    · have p2 : ¬ List.Lex (· < ·) b.live a.live := asym p1
      have p3 : List.beq a.live b.live = false := by
        cases hb3 : List.beq a.live b.live with
        | false => rfl
        | true =>
          rw [hE.mp hb3] at p1
          exact absurd p1 (irr _)
      rw [decide_eq_true p1, decide_eq_false p2, p3]
      rfl
    · rw [decide_eq_false p1]
      rcases tri with t | t | t
      · exact absurd t p1
      · rw [hE.mpr t]
        simp
      · rw [decide_eq_true t]
        rfl

theorem C12_operator_lt_witness :
    scenario_v3.Inv ∧ scenario_v5.Inv ∧ scenario_v4.Inv ∧
    ∃ lt_ab lt_ba eq_ab,
      operator_lt scenario_v3 scenario_v5 = .ok lt_ab ∧
      operator_lt scenario_v5 scenario_v3 = .ok lt_ba ∧
      operator_eq 1 2 scenario_v3 scenario_v5 = .ok eq_ab ∧
      (lt_ab = true ↔ List.Lex (· < ·) scenario_v3.live scenario_v5.live) ∧
      (∀ (x : Nat) (t : List Nat), scenario_v5.live = scenario_v3.live ++ x :: t →
        lt_ab = true) ∧
      operator_lt scenario_v3 scenario_v3 = .ok false ∧
      (lt_ab = true → operator_lt scenario_v5 scenario_v4 = .ok true →
        operator_lt scenario_v3 scenario_v4 = .ok true) ∧
      (lt_ab = false → lt_ba = false →
        operator_lt scenario_v5 scenario_v4 = .ok false →
        operator_lt scenario_v4 scenario_v5 = .ok false →
        operator_lt scenario_v3 scenario_v4 = .ok false ∧
        operator_lt scenario_v4 scenario_v3 = .ok false) ∧
      (lt_ab = true ∨ eq_ab = true ∨ lt_ba = true) ∧
      ¬ (lt_ab = true ∧ eq_ab = true) ∧ ¬ (lt_ab = true ∧ lt_ba = true) ∧
      ¬ (eq_ab = true ∧ lt_ba = true) ∧
      operator_le scenario_v3 scenario_v5 = .ok (lt_ab || eq_ab) ∧
      operator_gt scenario_v3 scenario_v5 = .ok lt_ba ∧
      operator_ge scenario_v3 scenario_v5 = .ok (lt_ba || eq_ab) :=
  ⟨by decide, by decide, by decide,
    C12_operator_lt 1 2 scenario_v3 scenario_v5 scenario_v4 (by decide) (by decide) (by decide)
      (fun h => absurd h (by decide))⟩

/-! ## A run of PushBack calls -/

theorem PushBack_all_spec [Inhabited α] :
    ∀ (xs : List α) (v : SimpleVector α), v.Inv →
      ((v.size_ = 0 ∧ v.capacity_ = 0) ∨ ∃ e, v.capacity_ = 2 ^ e ∧ v.capacity_ < 2 * v.size_) →
      (v.size_ + xs.length) * 2 ≤ SIZE_MOD →
      ∃ w, PushBack_all v xs = .ok w ∧ w.Inv ∧ w.size_ = v.size_ + xs.length ∧
        w.live = v.live ++ xs ∧
        ((w.size_ = 0 ∧ w.capacity_ = 0) ∨
          ∃ e, w.capacity_ = 2 ^ e ∧ w.capacity_ < 2 * w.size_) := by
  intro xs
  induction xs with
  | nil =>
    intro v hinv hshape _
    exact ⟨v, rfl, hinv, rfl, by simp, hshape⟩
  | cons x xs ih =>
    intro v hinv hshape hbound
    simp only [List.length_cons, SIZE_MOD] at hbound
    have hs1 : v.size_ + 1 < SIZE_MOD := by simp only [SIZE_MOD]; omega
    obtain ⟨w1, hw1, hsz1, hlive1, hcap1, _⟩ := PushBack_spec v x hinv hs1
    have hinv1 : w1.Inv := PushBack_inv v w1 x hinv hw1
    have hle := hinv.2.1
    have hshape1 : (w1.size_ = 0 ∧ w1.capacity_ = 0) ∨
        ∃ e, w1.capacity_ = 2 ^ e ∧ w1.capacity_ < 2 * w1.size_ := by
      right
      by_cases hfull : v.size_ = v.capacity_
      · rw [if_pos hfull, size_mul_two _ (by simp only [SIZE_MOD]; omega)] at hcap1
        rcases hshape with ⟨h0, hc0⟩ | ⟨e, he, hlt⟩
        · refine ⟨0, ?_, ?_⟩
          · rw [hcap1, h0, hc0]
            rfl
          · rw [hcap1, hsz1, h0, hc0]
            decide
        · refine ⟨e + 1, ?_, ?_⟩
          · rw [hcap1, Nat.pow_succ, ← he]
            omega
          · rw [hcap1, hsz1]
            omega
      · rw [if_neg hfull] at hcap1
        rcases hshape with ⟨h0, hc0⟩ | ⟨e, he, hlt⟩
        · omega
        · exact ⟨e, by rw [hcap1, he], by rw [hcap1, hsz1]; omega⟩
    obtain ⟨w, hw, hinvw, hszw, hlivew, hshapew⟩ :=
      ih w1 hinv1 hshape1 (by simp only [SIZE_MOD]; omega)
    refine ⟨w, ?_, hinvw, by rw [hszw, hsz1, List.length_cons]; omega, ?_, hshapew⟩
    · simp only [PushBack_all, hw1, ok_bind]
      exact hw
    · rw [hlivew, hlive1, List.append_assoc]
      rfl

/-- C20: starting from a default-constructed vector, after `PushBack(x_1)`, ...,
`PushBack(x_n)` with `n >= 1` the live sequence is `x_1 .. x_n` in push order, the size is
`n`, and the capacity is the least power of two that is at least `n`. -/
theorem C20_PushBack_run [Inhabited α] (xs : List α) (hn : 1 ≤ xs.length)
    (hbound : xs.length * 2 ≤ SIZE_MOD) :
    ∃ w, PushBack_all mk_default xs = .ok w ∧ w.live = xs ∧ w.GetSize = xs.length ∧
      ∃ e, w.GetCapacity = 2 ^ e ∧ xs.length ≤ 2 ^ e ∧
        ∀ m, xs.length ≤ 2 ^ m → 2 ^ e ≤ 2 ^ m := by
  obtain ⟨w, hw, hinv, hsz, hlive, hshape⟩ :=
    PushBack_all_spec xs (mk_default : SimpleVector α) mk_default_inv (Or.inl ⟨rfl, rfl⟩)
      (by show (0 + xs.length) * 2 ≤ SIZE_MOD; omega)
  have hsz2 : w.size_ = xs.length := by
    rw [hsz]
    show 0 + xs.length = xs.length
    omega
  refine ⟨w, hw, ?_, hsz2, ?_⟩
  · rw [hlive]
    show ([] : List α).take 0 ++ xs = xs
    simp
  · rcases hshape with ⟨h0, _⟩ | ⟨e, he, hlt⟩
    · omega
    · have hle := hinv.2.1
      refine ⟨e, he, by omega, ?_⟩
      intro m hm
      by_contra hcon
      have hme : m + 1 ≤ e := by
        by_contra hc2
        exact hcon (Nat.pow_le_pow_right (by decide) (by omega))
      have hpow : 2 ^ (m + 1) ≤ 2 ^ e := Nat.pow_le_pow_right (by decide) hme
      rw [Nat.pow_succ] at hpow
      omega

theorem C20_PushBack_run_witness :
    1 ≤ [10, 20, 30, 40, 50].length ∧ [10, 20, 30, 40, 50].length * 2 ≤ SIZE_MOD ∧
    ∃ w, PushBack_all (mk_default : SimpleVector Nat) [10, 20, 30, 40, 50] = .ok w ∧
      w.live = [10, 20, 30, 40, 50] ∧ w.GetSize = [10, 20, 30, 40, 50].length ∧
      ∃ e, w.GetCapacity = 2 ^ e ∧ [10, 20, 30, 40, 50].length ≤ 2 ^ e ∧
        ∀ m, [10, 20, 30, 40, 50].length ≤ 2 ^ m → 2 ^ e ≤ 2 ^ m :=
  ⟨by decide, by decide, C20_PushBack_run [10, 20, 30, 40, 50] (by decide) (by decide)⟩

/-- C6 (code defect): on a full vector of capacity 0 one `PushBack` (either overload) and one
copy `Insert` give capacity 1, and on a full vector of capacity 1 they give capacity 2, as
the claim says; one move `Insert` on the same vectors gives no vector at all: after the
growth it writes one slot past the block. -/
theorem C6_InsertMove_no_capacity_on_full_block :
    (mk_default : SimpleVector Nat).GetSize = (mk_default : SimpleVector Nat).GetCapacity ∧
    (mk_default : SimpleVector Nat).GetCapacity = 0 ∧
    ((mk_default : SimpleVector Nat).PushBack 4).map GetCapacity = .ok 1 ∧
    ((mk_default : SimpleVector Nat).PushBackMove 4).map GetCapacity = .ok 1 ∧
    ((mk_default : SimpleVector Nat).Insert 0 4).map (fun r => r.1.GetCapacity) = .ok 1 ∧
    ((mk_default : SimpleVector Nat).InsertMove 0 4).map (fun r => r.1.GetCapacity) =
      .error Fault.UndefinedBehaviour ∧
    scenario_v1.GetSize = scenario_v1.GetCapacity ∧ scenario_v1.GetCapacity = 1 ∧
    (scenario_v1.PushBack 4).map GetCapacity = .ok 2 ∧
    (scenario_v1.PushBackMove 4).map GetCapacity = .ok 2 ∧
    (scenario_v1.Insert 0 4).map (fun r => r.1.GetCapacity) = .ok 2 ∧
    (scenario_v1.InsertMove 0 4).map (fun r => r.1.GetCapacity) =
      .error Fault.UndefinedBehaviour :=
  ⟨rfl, rfl, rfl, rfl, rfl, rfl, rfl, rfl, rfl, rfl, rfl, rfl⟩

end SimpleVector

end SimpleVec
